import Mathlib

/-!
# Hook runner of the migration controller

A shallow embedding of `pkg/controller/migmigration/hooks.go` (`Task.runHooks` and the
job / config-map templates it uses) and of `pkg/apis/migration/v1alpha1/condition.go` (the
condition set), together with theorems about them.

Conventions of the embedding:

* Go strings are Lean `String`s, Go `[]byte` values are lists of naturals below 256,
  Go `map[string]string` values are association lists.
* A Go result `(v, err)` is kept as a pair: `err = none` is Go's `nil` error.  A pointer result
  that may be `nil` is an `Option`.
* The object stores and the cluster client resolver are outside this file's source; they are
  a parameter (`World`) of `runHooks`: every operation is a function of the current state of
  the outside world that yields the Go results and the next state.
* `runHooks` records every call it makes on the outside world, with the results it got, in a
  trace; the trace is instrumentation only and never influences the result.
* `time.Now()` is a parameter of the functions that call it: the clock reading at the call.
* The rune mapping of Go `unicode.ToLower`, which `strings.ToLower` applies to every
  character, is a parameter (`lowerRune`) of the functions that lower-case a name: its table
  belongs to the Go library.  The sample inputs are ASCII and use `sampleLower`.
-/

namespace MigController

/-! ## Data model -/

/-- Go `error` values that `runHooks` can return. -/
inductive Error where
  /-- An error returned by an object-store client or by the cluster client resolver. -/
  | client (msg : String)
  /-- The `base64.CorruptInputError` of `base64.StdEncoding.DecodeString`
  (the byte offset it carries is not modelled). -/
  | corruptInput
  /-- An error built by `fmt.Errorf`, with its text. -/
  | errorf (text : String)
  deriving DecidableEq, Repr

/-- Go `map[string]string`. -/
abbrev Labels := List (String × String)

/-- Go `m[k] = v` on a map kept as an association list. -/
def Labels.set : Labels → String → String → Labels
  | [], k, v => [(k, v)]
  | (k', v') :: m, k, v => if k' = k then (k, v) :: m else (k', v') :: Labels.set m k v

/-- Go `corev1.ObjectReference` (the fields read by `runHooks`). -/
structure ObjectReference where
  Name : String
  Namespace : String
  deriving DecidableEq, Repr

/-- Go `migapi.MigPlanHook`: a hook binding of a plan. -/
structure MigPlanHook where
  Reference : Option ObjectReference := none
  Phase : String := ""
  ExecutionNamespace : String := ""
  ServiceAccount : String := ""
  deriving DecidableEq, Repr

/-- Go `migapi.MigHookSpec`. -/
structure MigHookSpec where
  Custom : Bool := false
  Image : String := ""
  Playbook : String := ""
  TargetCluster : String := ""
  ActiveDeadlineSeconds : Int := 0
  deriving DecidableEq, Repr

/-- Go `migapi.MigHook`: a hook definition.  `CorrelationLabels` is the value of the method
`GetCorrelationLabels()`, whose code is outside this file's source. -/
structure MigHook where
  Spec : MigHookSpec := {}
  CorrelationLabels : Labels := []
  deriving DecidableEq, Repr

/-- Go `metav1.ObjectMeta` (the fields used here). -/
structure ObjectMeta where
  Name : String := ""
  GenerateName : String := ""
  Namespace : String := ""
  Labels : Labels := []
  deriving DecidableEq, Repr

/-- Go `corev1.ConfigMap`. -/
structure ConfigMap where
  ObjectMeta : ObjectMeta := {}
  BinaryData : List (String × List Nat) := []
  deriving DecidableEq, Repr

/-- Go `corev1.VolumeMount`. -/
structure VolumeMount where
  Name : String := ""
  MountPath : String := ""
  deriving DecidableEq, Repr

/-- Go `corev1.Container`. -/
structure Container where
  Name : String := ""
  Image : String := ""
  Command : List String := []
  VolumeMounts : List VolumeMount := []
  deriving DecidableEq, Repr

/-- Go `corev1.Volume`; `ConfigMap` is
`VolumeSource.ConfigMap.LocalObjectReference.Name` when the config-map source is set. -/
structure Volume where
  Name : String := ""
  ConfigMap : Option String := none
  deriving DecidableEq, Repr

/-- Go `corev1.PodSpec`. -/
structure PodSpec where
  Containers : List Container := []
  Volumes : List Volume := []
  RestartPolicy : String := ""
  ServiceAccountName : String := ""
  ActiveDeadlineSeconds : Option Int := none
  deriving DecidableEq, Repr

/-- Go `corev1.PodTemplateSpec`. -/
structure PodTemplateSpec where
  Spec : PodSpec := {}
  deriving DecidableEq, Repr

/-- Go `batchv1.JobSpec`. -/
structure JobSpec where
  Template : PodTemplateSpec := {}
  deriving DecidableEq, Repr

/-- Go `batchv1.JobStatus`: the two counters read by `runHooks`. -/
structure JobStatus where
  Failed : Int := 0
  Succeeded : Int := 0
  deriving DecidableEq, Repr

/-- Go `batchv1.Job`. -/
structure Job where
  ObjectMeta : ObjectMeta := {}
  Spec : JobSpec := {}
  Status : JobStatus := {}
  deriving DecidableEq, Repr

/-- Go `migapi.MigPlanSpec`. -/
structure MigPlanSpec where
  Hooks : List MigPlanHook := []
  deriving DecidableEq, Repr

/-- Go `migapi.MigPlan`. -/
structure MigPlan where
  Name : String := ""
  Spec : MigPlanSpec := {}
  deriving DecidableEq, Repr

/-- Go `PlanResources` (the plan only). -/
structure PlanResources where
  MigPlan : MigPlan := {}
  deriving DecidableEq, Repr

/-- Go `Task`: the running migration task. -/
structure Task where
  Phase : String := ""
  PlanResources : PlanResources := {}
  deriving DecidableEq, Repr

/-! ## Go library functions used by the source -/

/-- Go `strings.ToLower` (on valid UTF-8 text, which a Lean string is): every character of
the string mapped with Go `unicode.ToLower`.  That mapping is the parameter `lowerRune`: its
table is data of the Go library (the Unicode case ranges of the release of Go in use) and is
not part of this file's source. -/
def toLower (lowerRune : Char → Char) (s : String) : String :=
  String.mk (s.data.map lowerRune)

/-- Value of a character in the standard base64 alphabet. -/
def b64Value (c : Char) : Option Nat :=
  let n := c.toNat
  if 65 ≤ n ∧ n ≤ 90 then some (n - 65)
  else if 97 ≤ n ∧ n ≤ 122 then some (n - 97 + 26)
  else if 48 ≤ n ∧ n ≤ 57 then some (n - 48 + 52)
  else if n = 43 then some 62
  else if n = 47 then some 63
  else none

/-- Line breaks, which the Go decoder skips. -/
def isNewline (c : Char) : Bool :=
  c = '\n' || c = '\r'

/-- Skip leading line breaks. -/
def skipNewlines : List Char → List Char
  | [] => []
  | c :: cs => if isNewline c then skipNewlines cs else c :: cs

/-- The 24-bit value of a quantum of (up to four) 6-bit digits, as in Go
`uint(dbuf[0])<<18 | uint(dbuf[1])<<12 | uint(dbuf[2])<<6 | uint(dbuf[3])`. -/
def quantumValue (dbuf : List Nat) : Nat :=
  (dbuf.getD 0 0 <<< 18) ||| (dbuf.getD 1 0 <<< 12) ||| (dbuf.getD 2 0 <<< 6) ||| dbuf.getD 3 0

/-- The bytes a quantum of `dbuf.length` digits decodes to (`dlen - 1` of them). -/
def quantumBytes (dbuf : List Nat) : List Nat :=
  let val := quantumValue dbuf
  ([(val >>> 16) % 256, (val >>> 8) % 256, val % 256]).take (dbuf.length - 1)

/-- The decoding loop of Go `base64.StdEncoding.DecodeString` (standard alphabet, padding
`=`, not strict, line breaks ignored): `dbuf` holds the digits of the quantum being read,
`acc` the bytes decoded so far. -/
def decodeLoop : List Char → List Nat → List Nat → Except Error (List Nat)
  | [], dbuf, acc =>
    if dbuf.length = 0 then .ok acc else .error .corruptInput
  | c :: cs, dbuf, acc =>
    match b64Value c with
    | some v =>
      if dbuf.length = 3 then decodeLoop cs [] (acc ++ quantumBytes (dbuf ++ [v]))
      else decodeLoop cs (dbuf ++ [v]) acc
    | none =>
      if isNewline c then decodeLoop cs dbuf acc
      else if c ≠ '=' then .error .corruptInput
      else if dbuf.length < 2 then .error .corruptInput
      else if dbuf.length = 2 then
        match skipNewlines cs with
        | [] => .error .corruptInput
        | c2 :: cs2 =>
          if c2 ≠ '=' then .error .corruptInput
          else if skipNewlines cs2 ≠ [] then .error .corruptInput
          else .ok (acc ++ quantumBytes dbuf)
      else if skipNewlines cs ≠ [] then .error .corruptInput
      else .ok (acc ++ quantumBytes dbuf)

/-- Go `base64.StdEncoding.DecodeString`. -/
def DecodeString (s : String) : Except Error (List Nat) :=
  decodeLoop s.data [] []

/-! ## The source: template builders -/

/-- Go `Task.baseJobTemplate`. -/
def baseJobTemplate (lowerRune : Char → Char) (t : Task) (hook : MigPlanHook)
    (migHook : MigHook) : Job :=
  let deadlineSeconds : Int :=
    if migHook.Spec.ActiveDeadlineSeconds ≠ 0 then migHook.Spec.ActiveDeadlineSeconds else 1800
  let labels := Labels.set migHook.CorrelationLabels "phase" t.Phase
  { ObjectMeta :=
      { Namespace := hook.ExecutionNamespace
        GenerateName := toLower lowerRune (t.PlanResources.MigPlan.Name ++ "-" ++ t.Phase ++ "-")
        Labels := labels }
    Spec :=
      { Template :=
          { Spec :=
              { Containers :=
                  [{ Name := toLower lowerRune (t.PlanResources.MigPlan.Name ++ "-" ++ t.Phase)
                     Image := migHook.Spec.Image }]
                RestartPolicy := "OnFailure"
                ServiceAccountName := hook.ServiceAccount
                ActiveDeadlineSeconds := some deadlineSeconds } } } }

/-- Go assignment to a field of `Containers[0]`. -/
def updateFirstContainer (f : Container → Container) : List Container → List Container
  | [] => []
  | c :: cs => f c :: cs

/-- Go `Task.playbookJobTemplate`. -/
def playbookJobTemplate (lowerRune : Char → Char) (t : Task)
    (hook : MigPlanHook) (migHook : MigHook)
    (configMap : String) : Job :=
  let jobTemplate := baseJobTemplate lowerRune t hook migHook
  let containers1 := updateFirstContainer
    (fun c => { c with Command :=
      ["/bin/entrypoint", "ansible-runner", "-p", "/tmp/playbook/playbook.yml", "run",
        "/tmp/runner"] })
    jobTemplate.Spec.Template.Spec.Containers
  let containers2 := updateFirstContainer
    (fun c => { c with VolumeMounts := [{ Name := "playbook", MountPath := "/tmp/playbook" }] })
    containers1
  { jobTemplate with
    Spec := { Template := { Spec := { jobTemplate.Spec.Template.Spec with
      Containers := containers2
      Volumes := [{ Name := "playbook", ConfigMap := some configMap }] } } } }

/-- Go `Task.configMapTemplate`: `.error err` is the Go result `(nil, err)`, `.ok cm` the Go
result `(cm, nil)`. -/
def configMapTemplate (lowerRune : Char → Char) (t : Task) (hook : MigPlanHook)
    (migHook : MigHook) :
    Except Error ConfigMap :=
  let labels := Labels.set migHook.CorrelationLabels "phase" t.Phase
  match DecodeString migHook.Spec.Playbook with
  | .error err => .error err
  | .ok playbookData =>
    .ok
      { ObjectMeta :=
          { Namespace := hook.ExecutionNamespace
            GenerateName := toLower lowerRune (t.PlanResources.MigPlan.Name ++
                "-" ++ t.Phase ++ "-")
            Labels := labels }
        BinaryData := [("playbook.yml", playbookData)] }

/-! ## The outside world -/

/-- The object stores and the cluster client resolver, as `runHooks` uses them.  `σ` is the
state of the outside world, `κ` the type of client handles.  Every operation gets the current
state and yields the Go results and the next state.

* `Get`: `t.Client.Get(ctx, NamespacedName{name, namespace}, &migHook)`, giving the filled
  `migHook` and the error;
* `getDestinationClient`, `getSourceClient`: the methods of `Task` of these names;
* `GetPhaseConfigMap`, `GetPhaseJob`: the methods of `MigHook` of these names, with
  arguments `(client, phase)`;
* `CreateConfigMap`, `CreateJob`: `client.Create(ctx, obj)`, giving the object as the call
  leaves it (the client writes the stored object, with its assigned name, back into `obj`)
  and the error. -/
structure World (σ κ : Type) where
  Get : σ → String → String → (MigHook × Option Error) × σ
  getDestinationClient : σ → (κ × Option Error) × σ
  getSourceClient : σ → (κ × Option Error) × σ
  GetPhaseConfigMap : σ → MigHook → κ → String → (Option ConfigMap × Option Error) × σ
  CreateConfigMap : σ → κ → ConfigMap → (ConfigMap × Option Error) × σ
  GetPhaseJob : σ → MigHook → κ → String → (Option Job × Option Error) × σ
  CreateJob : σ → κ → Job → (Job × Option Error) × σ

/-- A call made on the outside world, with the results it returned. -/
inductive Event (κ : Type) where
  | Get (name ns : String) (out : MigHook) (err : Option Error)
  | getDestinationClient (client : κ) (err : Option Error)
  | getSourceClient (client : κ) (err : Option Error)
  | GetPhaseConfigMap (client : κ) (phase : String) (found : Option ConfigMap)
      (err : Option Error)
  | CreateConfigMap (client : κ) (obj : ConfigMap) (out : ConfigMap) (err : Option Error)
  | GetPhaseJob (client : κ) (phase : String) (found : Option Job) (err : Option Error)
  | CreateJob (client : κ) (obj : Job) (out : Job) (err : Option Error)
  deriving DecidableEq, Repr

/-- The error a recorded call returned. -/
def Event.err {κ : Type} : Event κ → Option Error
  | .Get _ _ _ e => e
  | .getDestinationClient _ e => e
  | .getSourceClient _ e => e
  | .GetPhaseConfigMap _ _ _ e => e
  | .CreateConfigMap _ _ _ e => e
  | .GetPhaseJob _ _ _ e => e
  | .CreateJob _ _ _ e => e

/-- Calls on an object store (reads and writes), as opposed to client resolution. -/
def Event.isStoreOp {κ : Type} : Event κ → Bool
  | .getDestinationClient _ _ => false
  | .getSourceClient _ _ => false
  | _ => true

/-- Calls that resolve a cluster client. -/
def Event.isResolve {κ : Type} : Event κ → Bool
  | .getDestinationClient _ _ => true
  | .getSourceClient _ _ => true
  | _ => false

/-- Store writes: `Create` of a config map or of a job. -/
def Event.isCreate {κ : Type} : Event κ → Bool
  | .CreateConfigMap _ _ _ _ => true
  | .CreateJob _ _ _ _ => true
  | _ => false

/-- The `Create` of a config map (the artifact). -/
def Event.isCreateConfigMap {κ : Type} : Event κ → Bool
  | .CreateConfigMap _ _ _ _ => true
  | _ => false

/-- The `Create` of a job. -/
def Event.isCreateJob {κ : Type} : Event κ → Bool
  | .CreateJob _ _ _ _ => true
  | _ => false

/-- What a call of `runHooks` yields: the Go result `(done, err)`, the calls it made on the
outside world, and the state it leaves the world in. -/
structure Outcome (σ κ : Type) where
  done : Bool
  err : Option Error
  trace : List (Event κ)
  state : σ

/-! ## The source: `runHooks` -/

/-- Lines 19-27 of `hooks.go`: the loop that picks the hook binding of the phase, starting
from the zero value `migapi.MigPlanHook{}`. -/
def selectHook (hooks : List MigPlanHook) (phase : String) : MigPlanHook :=
  hooks.foldl (fun hook h => if h.Phase ++ "Hooks" = phase then h else hook) {}

/-- Lines 89-108 of `hooks.go`: look the phase job up, create it when absent, otherwise
classify its status.  `tr` is the trace so far. -/
def pollJob {σ κ : Type} (W : World σ κ) (t : Task) (migHook : MigHook) (client : κ)
    (job : Job) (s : σ) (tr : List (Event κ)) : Outcome σ κ :=
  match W.GetPhaseJob s migHook client t.Phase with
  | ((runningJob, err), s1) =>
    let tr1 := tr ++ [Event.GetPhaseJob client t.Phase runningJob err]
    match runningJob, err with
    | none, none =>
      match W.CreateJob s1 client job with
      | ((out, err), s2) =>
        let tr2 := tr1 ++ [Event.CreateJob client job out err]
        match err with
        | some e => ⟨false, some e, tr2, s2⟩
        | none => ⟨false, none, tr2, s2⟩
    | _, some e => ⟨false, some e, tr1, s1⟩
    | some runningJob, none =>
      if runningJob.Status.Failed ≥ 5 then
        ⟨false, some (.errorf ("Hook job " ++ runningJob.ObjectMeta.Name ++ " failed.")),
          tr1, s1⟩
      else if runningJob.Status.Succeeded = 1 then ⟨true, none, tr1, s1⟩
      else ⟨false, none, tr1, s1⟩

/-- Lines 64-108 of `hooks.go`: build the job (for a playbook hook, after building the
config map and creating it when the phase has none) and go on to `pollJob`. -/
def submitHook {σ κ : Type} (lowerRune : Char → Char) (W : World σ κ)
    (t : Task) (hook : MigPlanHook)
    (migHook : MigHook) (client : κ) (s : σ) (tr : List (Event κ)) : Outcome σ κ :=
  if migHook.Spec.Custom then
    pollJob W t migHook client (baseJobTemplate lowerRune t hook migHook) s tr
  else
    match configMapTemplate lowerRune t hook migHook with
    | .error e => ⟨false, some e, tr, s⟩
    | .ok configMap =>
      match W.GetPhaseConfigMap s migHook client t.Phase with
      | ((phaseConfigMap, err), s1) =>
        let tr1 := tr ++ [Event.GetPhaseConfigMap client t.Phase phaseConfigMap err]
        match phaseConfigMap, err with
        | none, none =>
          match W.CreateConfigMap s1 client configMap with
          | ((out, err), s2) =>
            let tr2 := tr1 ++ [Event.CreateConfigMap client configMap out err]
            match err with
            | some e => ⟨false, some e, tr2, s2⟩
            | none =>
              pollJob W t migHook client
                (playbookJobTemplate lowerRune t hook migHook out.ObjectMeta.Name) s2 tr2
        | _, some e => ⟨false, some e, tr1, s1⟩
        | some _, none =>
          pollJob W t migHook client
            (playbookJobTemplate lowerRune t hook migHook configMap.ObjectMeta.Name) s1 tr1

/-- Go `Task.runHooks`, lines 18-112 of `hooks.go`. -/
def runHooks {σ κ : Type} (lowerRune : Char → Char) (W : World σ κ) (t : Task)
    (s : σ) : Outcome σ κ :=
  let hook := selectHook t.PlanResources.MigPlan.Spec.Hooks t.Phase
  match hook.Reference with
  | none => ⟨true, none, [], s⟩
  | some ref =>
    match W.Get s ref.Name ref.Namespace with
    | ((migHook, err), s1) =>
      let tr1 := [Event.Get ref.Name ref.Namespace migHook err]
      match err with
      | some e => ⟨false, some e, tr1, s1⟩
      | none =>
        if migHook.Spec.TargetCluster = "destination" then
          match W.getDestinationClient s1 with
          | ((client, err), s2) =>
            let tr2 := tr1 ++ [Event.getDestinationClient client err]
            match err with
            | some e => ⟨false, some e, tr2, s2⟩
            | none => submitHook lowerRune W t hook migHook client s2 tr2
        else if migHook.Spec.TargetCluster = "source" then
          match W.getSourceClient s1 with
          | ((client, err), s2) =>
            let tr2 := tr1 ++ [Event.getSourceClient client err]
            match err with
            | some e => ⟨false, some e, tr2, s2⟩
            | none => submitHook lowerRune W t hook migHook client s2 tr2
        else
          ⟨false,
            some (.errorf ("targetCluster must be 'source' or 'destination'. " ++
              migHook.Spec.TargetCluster ++ " unknown")),
            tr1, s1⟩

/-! ## The behaviours of `runHooks` -/

/-- The possible behaviours of `pollJob`: the calls it adds to the trace and its result. -/
inductive PollShape {κ : Type} (c : κ) (p : String) (job : Job) :
    List (Event κ) → Bool → Option Error → Prop where
  | created (out : Job) :
      PollShape c p job [.GetPhaseJob c p none none, .CreateJob c job out none] false none
  | createFailed (out : Job) (e : Error) :
      PollShape c p job [.GetPhaseJob c p none none, .CreateJob c job out (some e)]
        false (some e)
  | lookupFailed (found : Option Job) (e : Error) :
      PollShape c p job [.GetPhaseJob c p found (some e)] false (some e)
  | jobFailed (j : Job) (h : j.Status.Failed ≥ 5) :
      PollShape c p job [.GetPhaseJob c p (some j) none] false
        (some (.errorf ("Hook job " ++ j.ObjectMeta.Name ++ " failed.")))
  | succeeded (j : Job) (h : ¬ j.Status.Failed ≥ 5) (h1 : j.Status.Succeeded = 1) :
      PollShape c p job [.GetPhaseJob c p (some j) none] true none
  | running (j : Job) (h : ¬ j.Status.Failed ≥ 5) (h1 : ¬ j.Status.Succeeded = 1) :
      PollShape c p job [.GetPhaseJob c p (some j) none] false none

/-- The possible behaviours of `submitHook`. -/
inductive SubmitShape {κ : Type} (lowerRune : Char → Char) (t : Task) (hook : MigPlanHook)
    (migHook : MigHook) (c : κ) :
    List (Event κ) → Bool → Option Error → Prop where
  | custom (tail : List (Event κ)) (d : Bool) (e : Option Error)
      (hc : migHook.Spec.Custom = true)
      (hp : PollShape c t.Phase (baseJobTemplate lowerRune t hook migHook) tail d e) :
      SubmitShape lowerRune t hook migHook c tail d e
  | decodeFailed (e : Error) (hc : migHook.Spec.Custom = false)
      (hd : configMapTemplate lowerRune t hook migHook = .error e) :
      SubmitShape lowerRune t hook migHook c [] false (some e)
  | artifactCreated (configMap out : ConfigMap) (tail : List (Event κ)) (d : Bool)
      (e : Option Error) (hc : migHook.Spec.Custom = false)
      (hd : configMapTemplate lowerRune t hook migHook = .ok configMap)
      (hp : PollShape c t.Phase (playbookJobTemplate lowerRune t hook migHook out.ObjectMeta.Name)
        tail d e) :
      SubmitShape lowerRune t hook migHook c
        (.GetPhaseConfigMap c t.Phase none none :: .CreateConfigMap c configMap out none :: tail)
        d e
  | artifactCreateFailed (configMap out : ConfigMap) (e : Error)
      (hc : migHook.Spec.Custom = false)
      (hd : configMapTemplate lowerRune t hook migHook = .ok configMap) :
      SubmitShape lowerRune t hook migHook c
        [.GetPhaseConfigMap c t.Phase none none, .CreateConfigMap c configMap out (some e)]
        false (some e)
  | artifactLookupFailed (configMap : ConfigMap) (found : Option ConfigMap) (e : Error)
      (hc : migHook.Spec.Custom = false)
      (hd : configMapTemplate lowerRune t hook migHook = .ok configMap) :
      SubmitShape lowerRune t hook migHook c [.GetPhaseConfigMap c t.Phase found
          (some e)] false (some e)
  | artifactFound (configMap phaseConfigMap : ConfigMap) (tail : List (Event κ)) (d : Bool)
      (e : Option Error) (hc : migHook.Spec.Custom = false)
      (hd : configMapTemplate lowerRune t hook migHook = .ok configMap)
      (hp : PollShape c t.Phase
        (playbookJobTemplate lowerRune t hook migHook configMap.ObjectMeta.Name) tail d e) :
      SubmitShape lowerRune t hook migHook c
        (.GetPhaseConfigMap c t.Phase (some phaseConfigMap) none :: tail) d e

/-- The possible behaviours of `runHooks`: its trace and its result. -/
inductive RunShape {κ : Type} (lowerRune : Char → Char) (t : Task) : List (Event κ) → Bool →
    Option Error → Prop where
  | noReference
      (hr : (selectHook t.PlanResources.MigPlan.Spec.Hooks t.Phase).Reference = none) :
      RunShape lowerRune t [] true none
  | getFailed (ref : ObjectReference) (migHook : MigHook) (e : Error)
      (hr : (selectHook t.PlanResources.MigPlan.Spec.Hooks t.Phase).Reference = some ref) :
      RunShape lowerRune t [.Get ref.Name ref.Namespace migHook (some e)] false (some e)
  | destinationFailed (ref : ObjectReference) (migHook : MigHook) (c : κ) (e : Error)
      (hr : (selectHook t.PlanResources.MigPlan.Spec.Hooks t.Phase).Reference = some ref)
      (ht : migHook.Spec.TargetCluster = "destination") :
      RunShape lowerRune t [.Get ref.Name ref.Namespace migHook none,
          .getDestinationClient c (some e)]
        false (some e)
  | destination (ref : ObjectReference) (migHook : MigHook) (c : κ) (tail : List (Event κ))
      (d : Bool) (e : Option Error)
      (hr : (selectHook t.PlanResources.MigPlan.Spec.Hooks t.Phase).Reference = some ref)
      (ht : migHook.Spec.TargetCluster = "destination")
      (hs : SubmitShape lowerRune t
          (selectHook t.PlanResources.MigPlan.Spec.Hooks t.Phase) migHook c
        tail d e) :
      RunShape lowerRune t
        (.Get ref.Name ref.Namespace migHook none :: .getDestinationClient c none :: tail) d e
  | sourceFailed (ref : ObjectReference) (migHook : MigHook) (c : κ) (e : Error)
      (hr : (selectHook t.PlanResources.MigPlan.Spec.Hooks t.Phase).Reference = some ref)
      (ht : migHook.Spec.TargetCluster = "source") :
      RunShape lowerRune t [.Get ref.Name ref.Namespace migHook none, .getSourceClient c (some e)]
        false (some e)
  | source (ref : ObjectReference) (migHook : MigHook) (c : κ) (tail : List (Event κ))
      (d : Bool) (e : Option Error)
      (hr : (selectHook t.PlanResources.MigPlan.Spec.Hooks t.Phase).Reference = some ref)
      (ht : migHook.Spec.TargetCluster = "source")
      (hs : SubmitShape lowerRune t
          (selectHook t.PlanResources.MigPlan.Spec.Hooks t.Phase) migHook c
        tail d e) :
      RunShape lowerRune t
        (.Get ref.Name ref.Namespace migHook none :: .getSourceClient c none :: tail) d e
  | invalidTarget (ref : ObjectReference) (migHook : MigHook)
      (hr : (selectHook t.PlanResources.MigPlan.Spec.Hooks t.Phase).Reference = some ref)
      (hd : migHook.Spec.TargetCluster ≠ "destination")
      (hs : migHook.Spec.TargetCluster ≠ "source") :
      RunShape lowerRune t [.Get ref.Name ref.Namespace migHook none] false
        (some (.errorf ("targetCluster must be 'source' or 'destination'. " ++
          migHook.Spec.TargetCluster ++ " unknown")))

/-! ## Trace properties -/

/-- The job `Create` of a trace is guarded by the phase-job lookup: there is at most one job
`Create`, only after a lookup that returned no job and no error, and none when a lookup
returned a job or an error. -/
def JobCreateGuarded {κ : Type} (p : String) (tr : List (Event κ)) : Prop :=
  (tr.filter Event.isCreateJob).length ≤ 1 ∧
    (∀ c job out e, Event.CreateJob c job out e ∈ tr →
      Event.GetPhaseJob c p none none ∈ tr) ∧
    (∀ c q found e, Event.GetPhaseJob c q found e ∈ tr → found ≠ none ∨ e ≠ none →
      ∀ ev ∈ tr, ev.isCreateJob = false)

/-! ## A reference world -/

/-- Handles of the two target clusters in the reference world. -/
inductive Cluster where
  | source
  | destination
  deriving DecidableEq, Repr

/-- State of the reference world: the hook definitions of the host cluster by name and
namespace, the config maps and jobs of the target cluster, and the error (if any) with which
the target cluster currently rejects the creation of a job. -/
structure Memory where
  hooks : List (ObjectReference × MigHook) := []
  configMaps : List ConfigMap := []
  jobs : List Job := []
  createJobError : Option Error := none
  deriving DecidableEq, Repr

/-- The name the reference store assigns to an object created with a generated-name
prefix: the prefix followed by a non-empty suffix that grows with the number `n` of objects
already stored. -/
def assignedName (generateName : String) (n : Nat) : String :=
  generateName ++ String.mk (List.replicate (n + 1) 'x')

/-- Modelled from the spec: the object store, the cluster client resolver and the
phase-scoped lookups `GetPhaseConfigMap` and `GetPhaseJob` of `MigHook`, none of which is in
this file's source.  `Get` finds a hook definition by name and namespace and fails when there
is none; both resolvers succeed; the phase-scoped lookups return the first stored object
whose labels are the hook's correlation labels plus the `phase` label, or nothing, without
error; `Create` stores the object under an assigned name and writes it back, and the creation
of a job fails with `createJobError` when that is set. -/
def memoryWorld : World Memory Cluster where
  Get := fun s name ns =>
    match s.hooks.find? (fun h => decide (h.1 = { Name := name, Namespace := ns })) with
    | some h => ((h.2, none), s)
    | none => (({}, some (.client "not found")), s)
  getDestinationClient := fun s => ((.destination, none), s)
  getSourceClient := fun s => ((.source, none), s)
  GetPhaseConfigMap := fun s migHook _ phase =>
    ((s.configMaps.find? (fun cm =>
        decide (cm.ObjectMeta.Labels = Labels.set migHook.CorrelationLabels "phase" phase)),
      none), s)
  CreateConfigMap := fun s _ obj =>
    let out : ConfigMap :=
      { obj with ObjectMeta := { obj.ObjectMeta with
          Name := assignedName obj.ObjectMeta.GenerateName s.configMaps.length } }
    ((out, none), { s with configMaps := s.configMaps ++ [out] })
  GetPhaseJob := fun s migHook _ phase =>
    ((s.jobs.find? (fun j =>
        decide (j.ObjectMeta.Labels = Labels.set migHook.CorrelationLabels "phase" phase)),
      none), s)
  CreateJob := fun s _ obj =>
    match s.createJobError with
    | some e => ((obj, some e), s)
    | none =>
      let out : Job :=
        { obj with ObjectMeta := { obj.ObjectMeta with
            Name := assignedName obj.ObjectMeta.GenerateName s.jobs.length } }
      ((out, none), { s with jobs := s.jobs ++ [out] })

/-! ## Sample inputs -/

/-- The rune mapping used with the sample inputs, which are ASCII: Go `unicode.ToLower` on
ASCII characters (`A`..`Z` go to `a`..`z`, every other character is kept). -/
def sampleLower (r : Char) : Char :=
  Char.toLower r

/-- A hook binding for the phase `PreBackupHooks`. -/
def sampleBinding : MigPlanHook :=
  { Reference := some { Name := "hook", Namespace := "ns" }
    Phase := "PreBackup"
    ExecutionNamespace := "exec"
    ServiceAccount := "sa" }

/-- A task in phase `PreBackupHooks` whose plan has `sampleBinding`. -/
def sampleTask : Task :=
  { Phase := "PreBackupHooks"
    PlanResources := { MigPlan := { Name := "Plan", Spec := { Hooks := [sampleBinding] } } } }

/-- A task in phase `PreBackupHooks` whose plan has no hook binding. -/
def unboundTask : Task :=
  { Phase := "PreBackupHooks", PlanResources := { MigPlan := { Name := "Plan" } } }

/-- A playbook hook for the destination cluster; the playbook is the base64 text of `hi`. -/
def playbookHook : MigHook :=
  { Spec := { Custom := false, Image := "runner", Playbook := "aGk=",
              TargetCluster := "destination" }
    CorrelationLabels := [("hook", "uid-1")] }

/-- A custom hook for the source cluster. -/
def customHook : MigHook :=
  { Spec := { Custom := true, Image := "busybox", TargetCluster := "source" }
    CorrelationLabels := [("hook", "uid-1")] }

/-- A playbook hook whose playbook text is not base64. -/
def corruptHook : MigHook :=
  { playbookHook with Spec := { playbookHook.Spec with Playbook := "!!" } }

/-- A hook whose target cluster is neither `source` nor `destination`. -/
def strayHook : MigHook :=
  { playbookHook with Spec := { playbookHook.Spec with TargetCluster := "elsewhere" } }

/-- The reference world holding one hook definition under the name of `sampleBinding`. -/
def memoryWith (migHook : MigHook) : Memory :=
  { hooks := [({ Name := "hook", Namespace := "ns" }, migHook)] }

/-- A job of the sample hook and phase with the given status counters. -/
def sampleJob (failed succeeded : Int) : Job :=
  { ObjectMeta :=
      { Name := "plan-prebackuphooks-x"
        Labels := [("hook", "uid-1"), ("phase", "PreBackupHooks")] }
    Status := { Failed := failed, Succeeded := succeeded } }

/-- A config map of the sample hook and phase, as stored under its assigned name. -/
def sampleConfigMap : ConfigMap :=
  { ObjectMeta :=
      { Name := "plan-prebackuphooks-x"
        GenerateName := "plan-prebackuphooks-"
        Namespace := "exec"
        Labels := [("hook", "uid-1"), ("phase", "PreBackupHooks")] }
    BinaryData := [("playbook.yml", [104, 105])] }

/-! ## More of the Go library and of the map model -/

/-- Go `m[k]` read on a map kept as an association list: the value of the first pair with
key `k`. -/
def Labels.get : Labels → String → Option String
  | [], _ => none
  | (k', v') :: m, k => if k' = k then some v' else Labels.get m k

/-- The character of a 6-bit digit in the standard base64 alphabet. -/
def b64Char (n : Nat) : Char :=
  if n < 26 then Char.ofNat (65 + n)
  else if n < 52 then Char.ofNat (97 + (n - 26))
  else if n < 62 then Char.ofNat (48 + (n - 52))
  else if n = 62 then '+'
  else '/'

/-- Standard base64 encoding with padding (RFC 4648, section 4), on the characters: every
three bytes give four digits, a last group of one or two bytes is padded with `=`. -/
def encodeBytes : List Nat → List Char
  | [] => []
  | [a] => [b64Char (a / 4), b64Char (a % 4 * 16), '=', '=']
  | [a, b] => [b64Char (a / 4), b64Char (a % 4 * 16 + b / 16), b64Char (b % 16 * 4), '=']
  | a :: b :: c :: rest =>
    b64Char (a / 4) :: b64Char (a % 4 * 16 + b / 16) :: b64Char (b % 16 * 4 + c / 64) ::
      b64Char (c % 64) :: encodeBytes rest

/-- Go `base64.StdEncoding.EncodeToString`: the base64 encoding of a byte sequence. -/
def EncodeToString (bytes : List Nat) : String :=
  String.mk (encodeBytes bytes)

/-- Well-formed padded base64: groups of four characters of the standard alphabet, of which
the last may end in `=` or in `==`. -/
def wellFormed : List Char → Bool
  | [] => true
  | a :: b :: c :: d :: rest =>
    (b64Value a).isSome && (b64Value b).isSome &&
      (((b64Value c).isSome && (b64Value d).isSome && wellFormed rest) ||
        (rest.isEmpty && d = '=' && ((b64Value c).isSome || c = '=')))
  | _ => false

/-- Valid standard base64 text, as the decoder of the Go library takes it: well-formed padded
base64 once the line breaks (`\r` and `\n`), which the decoder ignores, are left out. -/
def ValidBase64 (s : String) : Prop :=
  wellFormed (s.data.filter (fun c => !isNewline c)) = true

/-! ## More sample inputs -/

/-- A custom hook whose playbook text is not base64. -/
def customCorruptHook : MigHook :=
  { customHook with Spec := { customHook.Spec with Playbook := "!!" } }

/-- The task `t` with the hook list of its plan replaced. -/
def withHooks (t : Task) (hooks : List MigPlanHook) : Task :=
  { t with PlanResources := { t.PlanResources with
      MigPlan := { t.PlanResources.MigPlan with Spec := { Hooks := hooks } } } }

/-! ## Data model of `condition.go` -/

/-- Go `metav1.Time`: an instant, as a number of clock ticks. -/
abbrev Time := Nat

/-- Go `Condition`. -/
structure Condition where
  Type' : String := ""
  Status : String := ""
  Reason : String := ""
  Message : String := ""
  LastTransitionTime : Time := 0
  deriving DecidableEq, Repr

set_option linter.dupNamespace false in
/-- Go `Conditions`: the managed collection; `none` is the `nil` slice. -/
structure Conditions where
  Conditions : Option (List Condition) := none
  deriving DecidableEq, Repr

/-- Go `Condition.Equal`. -/
def Condition.Equal (r other : Condition) : Bool :=
  r.Type' == other.Type' && r.Status == other.Status && r.Reason == other.Reason &&
    r.Message == other.Message

/-- Go `Condition.Update`; `now` is the value of `time.Now()` at the call. -/
def Condition.Update (r other : Condition) (now : Time) : Condition :=
  if r.Equal other then r
  else
    { Type' := other.Type', Status := other.Status, Reason := other.Reason,
      Message := other.Message, LastTransitionTime := now }

/-- The loop of Go `Conditions.FindCondition`, over the entries from position `index` on. -/
def findFrom (cndType : String) : List Condition → Nat → Nat × Option Condition
  | [], _ => (0, none)
  | condition :: rest, index =>
    if condition.Type' = cndType then (index, some condition)
    else findFrom cndType rest (index + 1)

/-- Go `Conditions.FindCondition`: the index and the pointer; the pointer is kept as the
entry it points to, `r.Conditions[index]`, and `none` is the `nil` pointer. -/
def FindCondition (r : Conditions) (cndType : String) : Nat × Option Condition :=
  match r.Conditions with
  | none => (0, none)
  | some conditions => findFrom cndType conditions 0

/-- Go `Conditions.SetCondition`; `now` is the value of `time.Now()` at the call.  The
update through the pointer `found` is the update of the entry at the index found. -/
def SetCondition (r : Conditions) (condition : Condition) (now : Time) :
    Conditions :=
  let conditions : List Condition :=
    match r.Conditions with
    | none => []
    | some conditions => conditions
  match FindCondition { Conditions := some conditions } condition.Type' with
  | (_, none) =>
    { Conditions := some (conditions ++ [{ condition with LastTransitionTime := now }]) }
  | (index, some found) =>
    { Conditions := some (conditions.set index (found.Update condition now)) }

/-- One turn of the loop of Go `Conditions.DeleteCondition`. -/
def deleteStep (r : Conditions) (name : String) : Conditions :=
  match r.Conditions, FindCondition r name with
  | some conditions, (i, some _) =>
    { Conditions := some (conditions.take i ++ conditions.drop (i + 1)) }
  | _, _ => r

/-- Go `Conditions.DeleteCondition`. -/
def DeleteCondition (r : Conditions) (cndTypes : List String) : Conditions :=
  match r.Conditions with
  | none => r
  | some _ => cndTypes.foldl deleteStep r

/-! ## Condition sets: entries, invariant, operations -/

/-- The entries of a condition set, in order; none for the `nil` slice. -/
def entries (r : Conditions) : List Condition :=
  match r.Conditions with
  | none => []
  | some conditions => conditions

/-- The invariant of a condition set: at most one condition per type. -/
def UniqueTypes (r : Conditions) : Prop :=
  ((entries r).map (fun c => c.Type')).Nodup

/-- An operation on a condition set: a call of `SetCondition` at a clock reading, or a call
of `DeleteCondition`. -/
inductive ConditionOp where
  | set (condition : Condition) (now : Time)
  | delete (cndTypes : List String)
  deriving DecidableEq, Repr

/-- The set after one operation. -/
def ConditionOp.run (r : Conditions) : ConditionOp → Conditions
  | .set condition now => SetCondition r condition now
  | .delete cndTypes => DeleteCondition r cndTypes

/-! ## Theorems: the behaviours of `runHooks` -/

theorem pollJob_shape {σ κ : Type} (W : World σ κ) (t : Task) (migHook : MigHook) (c : κ)
    (job : Job) (s : σ) (tr : List (Event κ)) :
    ∃ tail, (pollJob W t migHook c job s tr).trace = tr ++ tail ∧
      PollShape c t.Phase job tail (pollJob W t migHook c job s tr).done
        (pollJob W t migHook c job s tr).err := by
  rcases hW : W.GetPhaseJob s migHook c t.Phase with ⟨⟨rj, e⟩, s1⟩
  rcases hC : W.CreateJob s1 c job with ⟨⟨out, e2⟩, s2⟩
  cases rj <;> cases e
  · cases e2
    · simp only [pollJob, hW, hC]
      exact ⟨_, by simp, .created out⟩
    · simp only [pollJob, hW, hC]
      exact ⟨_, by simp, .createFailed out _⟩
  · simp only [pollJob, hW]
    exact ⟨_, rfl, .lookupFailed _ _⟩
  · rename_i j
    simp only [pollJob, hW]
    by_cases h5 : j.Status.Failed ≥ 5
    · rw [if_pos h5]; exact ⟨_, rfl, .jobFailed j h5⟩
    · rw [if_neg h5]
      by_cases h1 : j.Status.Succeeded = 1
      · rw [if_pos h1]; exact ⟨_, rfl, .succeeded j h5 h1⟩
      · rw [if_neg h1]; exact ⟨_, rfl, .running j h5 h1⟩
  · simp only [pollJob, hW]
    exact ⟨_, rfl, .lookupFailed _ _⟩

theorem submitHook_shape {σ κ : Type} (lowerRune : Char → Char) (W : World σ κ)
    (t : Task) (hook : MigPlanHook)
    (migHook : MigHook) (c : κ) (s : σ) (tr : List (Event κ)) :
    ∃ tail, (submitHook lowerRune W t hook migHook c s tr).trace = tr ++ tail ∧
      SubmitShape lowerRune t hook migHook c tail (submitHook lowerRune W t
          hook migHook c s tr).done
        (submitHook lowerRune W t hook migHook c s tr).err := by
  by_cases hc : migHook.Spec.Custom = true
  · obtain ⟨tail, h1, h2⟩ := pollJob_shape W t migHook c
      (baseJobTemplate lowerRune t hook migHook) s tr
    simp only [submitHook, hc, if_true]
    exact ⟨tail, h1, .custom tail _ _ hc h2⟩
  · have hc' : migHook.Spec.Custom = false := by simpa using hc
    rcases hd : configMapTemplate lowerRune t hook migHook with e | configMap
    · simp only [submitHook, hc', hd, Bool.false_eq_true, if_false]
      exact ⟨[], by simp, .decodeFailed e hc' hd⟩
    · rcases hW : W.GetPhaseConfigMap s migHook c t.Phase with ⟨⟨pcm, e⟩, s1⟩
      rcases hC : W.CreateConfigMap s1 c configMap with ⟨⟨out, e2⟩, s2⟩
      cases pcm <;> cases e
      · cases e2
        · obtain ⟨tail, h1, h2⟩ := pollJob_shape W t migHook c
            (playbookJobTemplate lowerRune t hook migHook out.ObjectMeta.Name) s2
            (tr ++ [Event.GetPhaseConfigMap c t.Phase none none] ++
              [Event.CreateConfigMap c configMap out none])
          simp only [submitHook, hc', hd, hW, hC, Bool.false_eq_true, if_false]
          exact ⟨_, by rw [h1]; simp, .artifactCreated configMap out tail _ _ hc' hd h2⟩
        · simp only [submitHook, hc', hd, hW, hC, Bool.false_eq_true, if_false]
          exact ⟨_, by simp, .artifactCreateFailed configMap out _ hc' hd⟩
      · simp only [submitHook, hc', hd, hW, Bool.false_eq_true, if_false]
        exact ⟨_, rfl, .artifactLookupFailed configMap _ _ hc' hd⟩
      · rename_i pcm
        obtain ⟨tail, h1, h2⟩ := pollJob_shape W t migHook c
            (playbookJobTemplate lowerRune t hook migHook configMap.ObjectMeta.Name) s1
            (tr ++ [Event.GetPhaseConfigMap c t.Phase (some pcm) none])
        simp only [submitHook, hc', hd, hW, Bool.false_eq_true, if_false]
        exact ⟨_, by rw [h1]; simp, .artifactFound configMap pcm tail _ _ hc' hd h2⟩
      · simp only [submitHook, hc', hd, hW, Bool.false_eq_true, if_false]
        exact ⟨_, rfl, .artifactLookupFailed configMap _ _ hc' hd⟩

theorem runHooks_shape {σ κ : Type} (lowerRune : Char → Char) (W : World σ κ) (t : Task) (s : σ) :
    RunShape lowerRune t (runHooks lowerRune W t s).trace (runHooks lowerRune W t s).done
        (runHooks lowerRune W t s).err := by
  rcases hr : (selectHook t.PlanResources.MigPlan.Spec.Hooks t.Phase).Reference with _ | ref
  · simp only [runHooks, hr]
    exact .noReference hr
  · rcases hG : W.Get s ref.Name ref.Namespace with ⟨⟨migHook, e⟩, s1⟩
    cases e
    swap
    · simp only [runHooks, hr, hG]
      exact .getFailed ref migHook _ hr
    by_cases hd : migHook.Spec.TargetCluster = "destination"
    · rcases hC : W.getDestinationClient s1 with ⟨⟨c, e⟩, s2⟩
      cases e
      · obtain ⟨tail, h1, h2⟩ := submitHook_shape lowerRune W t
          (selectHook t.PlanResources.MigPlan.Spec.Hooks t.Phase) migHook c s2
          ([Event.Get ref.Name ref.Namespace migHook none] ++
            [Event.getDestinationClient c none])
        simp only [runHooks, hr, hG, hC, if_pos hd]
        rw [h1]
        exact .destination ref migHook c tail _ _ hr hd h2
      · simp only [runHooks, hr, hG, hC, if_pos hd]
        exact .destinationFailed ref migHook c _ hr hd
    · by_cases hs : migHook.Spec.TargetCluster = "source"
      · rcases hC : W.getSourceClient s1 with ⟨⟨c, e⟩, s2⟩
        cases e
        · obtain ⟨tail, h1, h2⟩ := submitHook_shape lowerRune W t
            (selectHook t.PlanResources.MigPlan.Spec.Hooks t.Phase) migHook c s2
            ([Event.Get ref.Name ref.Namespace migHook none] ++
              [Event.getSourceClient c none])
          simp only [runHooks, hr, hG, hC, if_neg hd, if_pos hs]
          rw [h1]
          exact .source ref migHook c tail _ _ hr hs h2
        · simp only [runHooks, hr, hG, hC, if_neg hd, if_pos hs]
          exact .sourceFailed ref migHook c _ hr hs
      · simp only [runHooks, hr, hG, if_neg hd, if_neg hs]
        exact .invalidTarget ref migHook hr hd hs

/-! ## Theorems: selection of the hook binding -/

theorem selectHook_append (hooks : List MigPlanHook) (h : MigPlanHook) (phase : String) :
    selectHook (hooks ++ [h]) phase =
      if h.Phase ++ "Hooks" = phase then h else selectHook hooks phase := by
  simp [selectHook, List.foldl_append]

theorem selectHook_cases (hooks : List MigPlanHook) (phase : String) :
    (∃ h ∈ hooks, h.Phase ++ "Hooks" = phase ∧ selectHook hooks phase = h) ∨
      ((∀ h ∈ hooks, h.Phase ++ "Hooks" ≠ phase) ∧ selectHook hooks phase = {}) := by
  induction hooks using List.reverseRecOn with
  | nil => right; simp [selectHook]
  | append_singleton l a ih =>
    rw [selectHook_append]
    by_cases ha : a.Phase ++ "Hooks" = phase
    · left
      exact ⟨a, by simp, ha, by rw [if_pos ha]⟩
    · rw [if_neg ha]
      rcases ih with ⟨h, hm, hp, hs⟩ | ⟨hn, hs⟩
      · left
        exact ⟨h, by simp [hm], hp, hs⟩
      · right
        refine ⟨?_, hs⟩
        intro h hm
        rcases List.mem_append.mp hm with hm | hm
        · exact hn h hm
        · rw [List.mem_singleton.mp hm]; exact ha

/-- C2: when no hook binding of the plan is for the current phase (no binding `h` with
`h.Phase + "Hooks" == t.Phase`), `runHooks` returns `(true, nil)`, makes no call at all on
any store or on the client resolver, and leaves the world as it was. -/
theorem runHooks_unbound_phase {σ κ : Type} (lowerRune : Char → Char)
    (W : World σ κ) (t : Task) (s : σ)
    (h : ∀ b ∈ t.PlanResources.MigPlan.Spec.Hooks, b.Phase ++ "Hooks" ≠ t.Phase) :
    (runHooks lowerRune W t s).done = true ∧ (runHooks lowerRune W t s).err = none ∧
      (runHooks lowerRune W t s).trace = [] ∧ (runHooks lowerRune W t s).state = s := by
  have hsel : selectHook t.PlanResources.MigPlan.Spec.Hooks t.Phase = {} := by
    rcases selectHook_cases t.PlanResources.MigPlan.Spec.Hooks t.Phase with
      ⟨b, hm, hp, _⟩ | ⟨_, hs⟩
    · exact absurd hp (h b hm)
    · exact hs
  simp [runHooks, hsel]

theorem runHooks_unbound_phase_witness :
    (∀ b ∈ unboundTask.PlanResources.MigPlan.Spec.Hooks,
        b.Phase ++ "Hooks" ≠ unboundTask.Phase) ∧
      (runHooks sampleLower memoryWorld unboundTask (memoryWith playbookHook)).done = true ∧
      (runHooks sampleLower memoryWorld unboundTask (memoryWith playbookHook)).err = none ∧
      (runHooks sampleLower memoryWorld unboundTask (memoryWith playbookHook)).trace = [] ∧
      (runHooks sampleLower memoryWorld unboundTask (memoryWith playbookHook)).state =
        memoryWith playbookHook :=
  ⟨by decide, runHooks_unbound_phase sampleLower memoryWorld unboundTask (memoryWith playbookHook)
    (by decide)⟩

/-- C3, as stated, fails: for the phase `PreBackupHooks` the loop selects the binding whose
phase-trigger is `PreBackup`, which is not `PreBackupHooks` followed by `Hooks`; and a binding
whose phase-trigger is `PreBackupHooksHooks` is not selected. -/
theorem selectHook_not_phase_plus_suffix :
    selectHook [sampleBinding] "PreBackupHooks" = sampleBinding ∧
      sampleBinding.Phase ≠ "PreBackupHooks" ++ "Hooks" ∧
      selectHook [{ sampleBinding with Phase := "PreBackupHooks" ++ "Hooks" }]
        "PreBackupHooks" = {} := by
  decide

/-- C3, amended: for every phase name `p` and every list of hook bindings, either the loop
selects a binding of the list whose phase-trigger followed by `Hooks` equals `p`
(`binding.Phase + "Hooks" == p`), or no binding of the list has that property and none is
selected (the result is the zero value); a binding with `binding.Phase + "Hooks" != p` is
never selected. -/
theorem selectHook_selects_phase_hooks (hooks : List MigPlanHook) (p : String) :
    ((∃ b ∈ hooks, b.Phase ++ "Hooks" = p ∧ selectHook hooks p = b) ∨
      ((∀ b ∈ hooks, b.Phase ++ "Hooks" ≠ p) ∧ selectHook hooks p = {})) ∧
    (∀ b ∈ hooks, b.Phase ++ "Hooks" ≠ p → selectHook hooks p = b → b = {}) := by
  refine ⟨selectHook_cases hooks p, ?_⟩
  intro b _ hne hsel
  rcases selectHook_cases hooks p with ⟨b', _, hp, hs⟩ | ⟨_, hs⟩
  · rw [hsel] at hs
    rw [hs] at hne
    exact absurd hp hne
  · rw [hsel] at hs
    exact hs

/-! ## Theorems: early exits and the first call -/

/-- C4: when the hook definition fetched for the selected binding has a `targetCluster` that
is neither `source` nor `destination` (the empty string included), `runHooks` returns
`(false, err)` where the text of `err` contains that value; the only call it makes is the
`Get` of the hook definition: it resolves no cluster client and creates nothing. -/
theorem runHooks_invalid_target {σ κ : Type} (lowerRune : Char → Char) (W : World σ κ)
    (t : Task) (s s1 : σ)
    (ref : ObjectReference) (migHook : MigHook)
    (hr : (selectHook t.PlanResources.MigPlan.Spec.Hooks t.Phase).Reference = some ref)
    (hG : W.Get s ref.Name ref.Namespace = ((migHook, none), s1))
    (hd : migHook.Spec.TargetCluster ≠ "destination")
    (hs : migHook.Spec.TargetCluster ≠ "source") :
    (runHooks lowerRune W t s).done = false ∧
      (runHooks lowerRune W t s).err = some
          (.errorf ("targetCluster must be 'source' or 'destination'. "
        ++ migHook.Spec.TargetCluster ++ " unknown")) ∧
      (∃ pre post, (runHooks lowerRune W t s).err =
        some (.errorf (pre ++ migHook.Spec.TargetCluster ++ post))) ∧
      (runHooks lowerRune W t s).trace = [.Get ref.Name ref.Namespace migHook none] ∧
      (∀ ev ∈ (runHooks lowerRune W t s).trace, ev.isResolve = false ∧ ev.isCreate = false) ∧
      (runHooks lowerRune W t s).state = s1 := by
  have h : runHooks lowerRune W t s =
      ⟨false, some (.errorf ("targetCluster must be 'source' or 'destination'. "
        ++ migHook.Spec.TargetCluster ++ " unknown")),
        [.Get ref.Name ref.Namespace migHook none], s1⟩ := by
    simp only [runHooks, hr, hG, if_neg hd, if_neg hs]
  rw [h]
  refine ⟨rfl, rfl, ⟨_, _, rfl⟩, rfl, ?_, rfl⟩
  intro ev hev
  rw [List.mem_singleton.mp hev]
  exact ⟨rfl, rfl⟩

theorem runHooks_invalid_target_witness :
    (runHooks sampleLower memoryWorld sampleTask (memoryWith strayHook)).done = false ∧
      (runHooks sampleLower memoryWorld sampleTask (memoryWith strayHook)).err =
        some (.errorf ("targetCluster must be 'source' or 'destination'. "
          ++ strayHook.Spec.TargetCluster ++ " unknown")) ∧
      (∃ pre post, (runHooks sampleLower memoryWorld sampleTask (memoryWith strayHook)).err =
        some (.errorf (pre ++ strayHook.Spec.TargetCluster ++ post))) ∧
      (runHooks sampleLower memoryWorld sampleTask (memoryWith strayHook)).trace =
        [.Get "hook" "ns" strayHook none] ∧
      (∀ ev ∈ (runHooks sampleLower memoryWorld sampleTask (memoryWith strayHook)).trace,
        ev.isResolve = false ∧ ev.isCreate = false) ∧
      (runHooks sampleLower memoryWorld sampleTask (memoryWith strayHook)).state =
          memoryWith strayHook :=
  runHooks_invalid_target sampleLower memoryWorld sampleTask (memoryWith strayHook)
      (memoryWith strayHook)
    { Name := "hook", Namespace := "ns" } strayHook (by decide) (by rfl) (by decide) (by decide)

/-- C5, as stated, fails: for a playbook hook whose playbook text is not base64, the trace
of store operations of the call is not empty: it holds the `Get` of the hook definition, from
which the playbook text is read. -/
theorem runHooks_corrupt_playbook_reads_store :
    corruptHook.Spec.Custom = false ∧
      DecodeString corruptHook.Spec.Playbook = .error .corruptInput ∧
      (runHooks sampleLower memoryWorld sampleTask (memoryWith
          corruptHook)).err = some .corruptInput ∧
      (runHooks sampleLower memoryWorld sampleTask (memoryWith
          corruptHook)).trace.filter Event.isStoreOp
        = [.Get "hook" "ns" corruptHook none] ∧
      (runHooks sampleLower memoryWorld sampleTask (memoryWith
          corruptHook)).trace.filter Event.isStoreOp
        ≠ [] := by
  refine ⟨rfl, rfl, rfl, rfl, ?_⟩
  decide

/-- C5, amended: when the hook definition fetched for the selected binding is a playbook
hook (`custom = false`), its target client resolves, and its playbook text is not valid
standard base64, `runHooks` returns `(false, err)` with the decode error before any lookup
and any `Create`: the only store operation of the call is the `Get` of the hook definition
itself. -/
theorem runHooks_corrupt_playbook {σ κ : Type} (lowerRune : Char → Char) (W : World σ κ)
    (t : Task) (s s1 s2 : σ)
    (ref : ObjectReference) (migHook : MigHook) (c : κ) (e : Error)
    (hr : (selectHook t.PlanResources.MigPlan.Spec.Hooks t.Phase).Reference = some ref)
    (hG : W.Get s ref.Name ref.Namespace = ((migHook, none), s1))
    (hT : (migHook.Spec.TargetCluster = "destination" ∧
            W.getDestinationClient s1 = ((c, none), s2)) ∨
          (migHook.Spec.TargetCluster = "source" ∧ W.getSourceClient s1 = ((c, none), s2)))
    (hc : migHook.Spec.Custom = false)
    (hD : DecodeString migHook.Spec.Playbook = .error e) :
    (runHooks lowerRune W t s).done = false ∧ (runHooks lowerRune W t s).err = some e ∧
      (runHooks lowerRune W t s).trace.filter Event.isStoreOp =
        [.Get ref.Name ref.Namespace migHook none] ∧
      (runHooks lowerRune W t s).state = s2 := by
  have hcm : configMapTemplate lowerRune t (selectHook t.PlanResources.MigPlan.Spec.Hooks t.Phase)
      migHook = .error e := by
    simp only [configMapTemplate, hD]
  rcases hT with ⟨ht, hC⟩ | ⟨ht, hC⟩
  · have h : runHooks lowerRune W t s =
        ⟨false, some e, [.Get ref.Name ref.Namespace migHook none] ++
          [.getDestinationClient c none], s2⟩ := by
      simp only [runHooks, hr, hG, hC, if_pos ht, submitHook, hc, hcm, Bool.false_eq_true,
        if_false]
    rw [h]
    exact ⟨rfl, rfl, rfl, rfl⟩
  · have hd : migHook.Spec.TargetCluster ≠ "destination" := by rw [ht]; decide
    have h : runHooks lowerRune W t s =
        ⟨false, some e, [.Get ref.Name ref.Namespace migHook none] ++
          [.getSourceClient c none], s2⟩ := by
      simp only [runHooks, hr, hG, hC, if_neg hd, if_pos ht, submitHook, hc, hcm,
        Bool.false_eq_true, if_false]
    rw [h]
    exact ⟨rfl, rfl, rfl, rfl⟩

theorem runHooks_corrupt_playbook_witness :
    (runHooks sampleLower memoryWorld sampleTask (memoryWith corruptHook)).done = false ∧
      (runHooks sampleLower memoryWorld sampleTask (memoryWith
          corruptHook)).err = some .corruptInput ∧
      (runHooks sampleLower memoryWorld sampleTask (memoryWith
          corruptHook)).trace.filter Event.isStoreOp
        = [.Get "hook" "ns" corruptHook none] ∧
      (runHooks sampleLower memoryWorld sampleTask (memoryWith corruptHook)).state =
        memoryWith corruptHook :=
  runHooks_corrupt_playbook sampleLower memoryWorld sampleTask (memoryWith corruptHook)
    (memoryWith corruptHook) (memoryWith corruptHook) { Name := "hook", Namespace := "ns" }
    corruptHook Cluster.destination Error.corruptInput (by decide) (by rfl)
    (Or.inl ⟨by decide, by rfl⟩) (by rfl) (by rfl)

/-- C6: for a playbook hook with a valid, resolving target and a decodable playbook (the
config-map template is built), run against a store in which the lookups find neither an
artifact nor a job for the phase and both creates succeed, one call of `runHooks` creates
the artifact, then the job, creates nothing else, and returns `(false, nil)`. -/
theorem runHooks_first_call_playbook {σ κ : Type} (lowerRune : Char → Char)
    (W : World σ κ) (t : Task)
    (s s1 s2 s3 s4 s5 s6 : σ) (ref : ObjectReference) (migHook : MigHook) (c : κ)
    (configMap out : ConfigMap) (jobOut : Job)
    (hr : (selectHook t.PlanResources.MigPlan.Spec.Hooks t.Phase).Reference = some ref)
    (hG : W.Get s ref.Name ref.Namespace = ((migHook, none), s1))
    (hT : (migHook.Spec.TargetCluster = "destination" ∧
            W.getDestinationClient s1 = ((c, none), s2)) ∨
          (migHook.Spec.TargetCluster = "source" ∧ W.getSourceClient s1 = ((c, none), s2)))
    (hc : migHook.Spec.Custom = false)
    (hD : configMapTemplate lowerRune t
        (selectHook t.PlanResources.MigPlan.Spec.Hooks t.Phase) migHook
      = .ok configMap)
    (hL : W.GetPhaseConfigMap s2 migHook c t.Phase = ((none, none), s3))
    (hC : W.CreateConfigMap s3 c configMap = ((out, none), s4))
    (hJ : W.GetPhaseJob s4 migHook c t.Phase = ((none, none), s5))
    (hK : W.CreateJob s5 c
      (playbookJobTemplate lowerRune t
          (selectHook t.PlanResources.MigPlan.Spec.Hooks t.Phase) migHook
        out.ObjectMeta.Name) = ((jobOut, none), s6)) :
    (runHooks lowerRune W t s).done = false ∧ (runHooks lowerRune W t s).err = none ∧
      (runHooks lowerRune W t s).trace.filter Event.isStoreOp =
        [.Get ref.Name ref.Namespace migHook none,
         .GetPhaseConfigMap c t.Phase none none,
         .CreateConfigMap c configMap out none,
         .GetPhaseJob c t.Phase none none,
         .CreateJob c
           (playbookJobTemplate lowerRune t (selectHook t.PlanResources.MigPlan.Spec.Hooks t.Phase)
             migHook out.ObjectMeta.Name) jobOut none] ∧
      (runHooks lowerRune W t s).trace.filter Event.isCreate =
        [.CreateConfigMap c configMap out none,
         .CreateJob c
           (playbookJobTemplate lowerRune t (selectHook t.PlanResources.MigPlan.Spec.Hooks t.Phase)
             migHook out.ObjectMeta.Name) jobOut none] ∧
      (runHooks lowerRune W t s).state = s6 := by
  rcases hT with ⟨ht, hR⟩ | ⟨ht, hR⟩
  · have h : runHooks lowerRune W t s =
        ⟨false, none, [.Get ref.Name ref.Namespace migHook none] ++
          [.getDestinationClient c none] ++ [.GetPhaseConfigMap c t.Phase none none] ++
          [.CreateConfigMap c configMap out none] ++ [.GetPhaseJob c t.Phase none none] ++
          [.CreateJob c
            (playbookJobTemplate lowerRune t (selectHook t.PlanResources.MigPlan.Spec.Hooks t.Phase)
              migHook out.ObjectMeta.Name) jobOut none], s6⟩ := by
      simp only [runHooks, hr, hG, hR, if_pos ht, submitHook, hc, hD, hL, hC, pollJob, hJ,
        hK, Bool.false_eq_true, if_false]
    rw [h]
    exact ⟨rfl, rfl, rfl, rfl, rfl⟩
  · have hd : migHook.Spec.TargetCluster ≠ "destination" := by rw [ht]; decide
    have h : runHooks lowerRune W t s =
        ⟨false, none, [.Get ref.Name ref.Namespace migHook none] ++
          [.getSourceClient c none] ++ [.GetPhaseConfigMap c t.Phase none none] ++
          [.CreateConfigMap c configMap out none] ++ [.GetPhaseJob c t.Phase none none] ++
          [.CreateJob c
            (playbookJobTemplate lowerRune t (selectHook t.PlanResources.MigPlan.Spec.Hooks t.Phase)
              migHook out.ObjectMeta.Name) jobOut none], s6⟩ := by
      simp only [runHooks, hr, hG, hR, if_neg hd, if_pos ht, submitHook, hc, hD, hL, hC,
        pollJob, hJ, hK, Bool.false_eq_true, if_false]
    rw [h]
    exact ⟨rfl, rfl, rfl, rfl, rfl⟩

theorem runHooks_first_call_playbook_witness :
    (runHooks sampleLower memoryWorld sampleTask (memoryWith playbookHook)).done = false ∧
      (runHooks sampleLower memoryWorld sampleTask (memoryWith playbookHook)).err = none ∧
      ((runHooks sampleLower memoryWorld sampleTask (memoryWith playbookHook)).trace.filter
        Event.isCreate).map Event.isCreateConfigMap = [true, false] ∧
      (runHooks sampleLower memoryWorld sampleTask (memoryWith playbookHook)).state.configMaps =
        [sampleConfigMap] :=
  have h := runHooks_first_call_playbook sampleLower memoryWorld sampleTask
    (memoryWith playbookHook) (memoryWith playbookHook) (memoryWith playbookHook)
    (memoryWith playbookHook)
    { memoryWith playbookHook with configMaps := [sampleConfigMap] }
    { memoryWith playbookHook with configMaps := [sampleConfigMap] }
    (memoryWorld.CreateJob { memoryWith playbookHook with configMaps := [sampleConfigMap] }
      Cluster.destination
      (playbookJobTemplate sampleLower sampleTask sampleBinding playbookHook
          "plan-prebackuphooks-x")).2
    { Name := "hook", Namespace := "ns" } playbookHook Cluster.destination
    { sampleConfigMap with ObjectMeta := { sampleConfigMap.ObjectMeta with Name := "" } }
    sampleConfigMap
    (memoryWorld.CreateJob { memoryWith playbookHook with configMaps := [sampleConfigMap] }
      Cluster.destination
      (playbookJobTemplate sampleLower sampleTask sampleBinding playbookHook
          "plan-prebackuphooks-x")).1.1
    (by decide) (by rfl) (Or.inl ⟨by decide, by rfl⟩) (by rfl) (by rfl) (by rfl) (by rfl)
    (by rfl) (by rfl)
  ⟨h.1, h.2.1, by rw [h.2.2.2.1]; rfl, by rw [h.2.2.2.2]; rfl⟩

/-! ## Theorems: an existing job -/

theorem pollShape_found_result {κ : Type} {c c' : κ} {p p' : String} {job j : Job}
    {tail : List (Event κ)} {d : Bool} {e : Option Error} (h : PollShape c p job tail d e)
    (hm : Event.GetPhaseJob c' p' (some j) none ∈ tail) :
    (d, e) =
      if j.Status.Failed ≥ 5 then
        (false, some (.errorf ("Hook job " ++ j.ObjectMeta.Name ++ " failed.")))
      else if j.Status.Succeeded = 1 then (true, none)
      else (false, none) := by
  cases h with
  | created out => simp at hm
  | createFailed out e => simp at hm
  | lookupFailed found e => simp at hm
  | jobFailed j0 h5 =>
    simp only [List.mem_singleton, Event.GetPhaseJob.injEq, Option.some.injEq] at hm
    obtain ⟨-, -, rfl, -⟩ := hm
    rw [if_pos h5]
  | succeeded j0 h5 h1 =>
    simp only [List.mem_singleton, Event.GetPhaseJob.injEq, Option.some.injEq] at hm
    obtain ⟨-, -, rfl, -⟩ := hm
    rw [if_neg h5, if_pos h1]
  | running j0 h5 h1 =>
    simp only [List.mem_singleton, Event.GetPhaseJob.injEq, Option.some.injEq] at hm
    obtain ⟨-, -, rfl, -⟩ := hm
    rw [if_neg h5, if_neg h1]

theorem submitShape_found_result {κ : Type} {lowerRune : Char → Char}
    {t : Task} {hook : MigPlanHook}
    {migHook : MigHook} {c c' : κ} {p' : String} {j : Job}
    {tail : List (Event κ)} {d : Bool} {e : Option Error}
    (h : SubmitShape lowerRune t hook migHook c tail d e)
    (hm : Event.GetPhaseJob c' p' (some j) none ∈ tail) :
    (d, e) =
      if j.Status.Failed ≥ 5 then
        (false, some (.errorf ("Hook job " ++ j.ObjectMeta.Name ++ " failed.")))
      else if j.Status.Succeeded = 1 then (true, none)
      else (false, none) := by
  cases h with
  | custom tail d e hc hp => exact (pollShape_found_result hp) hm
  | decodeFailed e hc hd => simp at hm
  | artifactCreated configMap out tail d e hc hd hp =>
    simp only [List.mem_cons, reduceCtorEq, false_or] at hm
    exact (pollShape_found_result hp) hm
  | artifactCreateFailed configMap out e hc hd => simp at hm
  | artifactLookupFailed configMap found e hc hd => simp at hm
  | artifactFound configMap pcm tail d e hc hd hp =>
    simp only [List.mem_cons, reduceCtorEq, false_or] at hm
    exact (pollShape_found_result hp) hm

theorem runShape_found_result {κ : Type} {lowerRune : Char → Char} {t : Task} {c' : κ}
    {p' : String} {j : Job}
    {tr : List (Event κ)} {d : Bool} {e : Option Error}
    (h : RunShape lowerRune t tr d e)
    (hm : Event.GetPhaseJob c' p' (some j) none ∈ tr) :
    (d, e) =
      if j.Status.Failed ≥ 5 then
        (false, some (.errorf ("Hook job " ++ j.ObjectMeta.Name ++ " failed.")))
      else if j.Status.Succeeded = 1 then (true, none)
      else (false, none) := by
  cases h with
  | noReference hr => simp at hm
  | getFailed ref migHook e hr => simp at hm
  | destinationFailed ref migHook c e hr ht => simp at hm
  | destination ref migHook c tail d e hr ht hs =>
    simp only [List.mem_cons, reduceCtorEq, false_or] at hm
    exact (submitShape_found_result hs) hm
  | sourceFailed ref migHook c e hr ht => simp at hm
  | source ref migHook c tail d e hr ht hs =>
    simp only [List.mem_cons, reduceCtorEq, false_or] at hm
    exact (submitShape_found_result hs) hm
  | invalidTarget ref migHook hr hd hs => simp at hm

/-- C1: whenever a call of `runHooks` gets as far as the phase-job lookup and that lookup
returns an existing job `j` without error, the result depends on the status counters of `j`
only: `(false, err)` with the text `Hook job <name of j> failed.` when `failed >= 5`,
otherwise `(true, nil)` when `succeeded == 1`, otherwise `(false, nil)`. -/
theorem runHooks_existing_job_result {σ κ : Type} (lowerRune : Char → Char) (W : World σ κ)
    (t : Task) (s : σ) (c : κ)
    (p : String) (j : Job)
    (h : Event.GetPhaseJob c p (some j) none ∈ (runHooks lowerRune W t s).trace) :
    ((runHooks lowerRune W t s).done, (runHooks lowerRune W t s).err) =
      if j.Status.Failed ≥ 5 then
        (false, some (.errorf ("Hook job " ++ j.ObjectMeta.Name ++ " failed.")))
      else if j.Status.Succeeded = 1 then (true, none)
      else (false, none) :=
  (runShape_found_result (runHooks_shape lowerRune W t s)) h

theorem runHooks_existing_job_result_witness :
    ((runHooks sampleLower memoryWorld sampleTask
        { memoryWith playbookHook with
          configMaps := [sampleConfigMap], jobs := [sampleJob 5 0] }).done,
      (runHooks sampleLower memoryWorld sampleTask
        { memoryWith playbookHook with
          configMaps := [sampleConfigMap], jobs := [sampleJob 5 0] }).err) =
      (false, some (.errorf "Hook job plan-prebackuphooks-x failed.")) :=
  runHooks_existing_job_result sampleLower memoryWorld sampleTask
    { memoryWith playbookHook with configMaps := [sampleConfigMap], jobs := [sampleJob 5 0] }
    Cluster.destination "PreBackupHooks" (sampleJob 5 0) (by decide)

/-! ## Theorems: creation of the job -/

theorem jobCreateGuarded_of_no_job_event {κ : Type} (p : String) (tr : List (Event κ))
    (h1 : ∀ ev ∈ tr, ev.isCreateJob = false)
    (h2 : ∀ c q found e, Event.GetPhaseJob c q found e ∉ tr) : JobCreateGuarded p tr := by
  refine ⟨?_, ?_, ?_⟩
  · have : tr.filter Event.isCreateJob = [] := by
      rw [List.filter_eq_nil_iff]
      intro ev hev
      simp [h1 ev hev]
    simp [this]
  · intro c job out e hm
    have := h1 _ hm
    simp [Event.isCreateJob] at this
  · intro c q found e hm
    exact absurd hm (h2 c q found e)

theorem jobCreateGuarded_cons {κ : Type} {p : String} {tr : List (Event κ)} (ev : Event κ)
    (h : JobCreateGuarded p tr) (h1 : ev.isCreateJob = false)
    (h2 : ∀ c q found e, ev ≠ Event.GetPhaseJob c q found e) :
    JobCreateGuarded p (ev :: tr) := by
  obtain ⟨ha, hb, hc⟩ := h
  refine ⟨?_, ?_, ?_⟩
  · simpa [List.filter_cons, h1] using ha
  · intro c job out e hm
    rcases List.mem_cons.mp hm with hm | hm
    · rw [← hm] at h1
      simp [Event.isCreateJob] at h1
    · exact List.mem_cons_of_mem _ (hb c job out e hm)
  · intro c q found e hm hne ev' hev'
    rcases List.mem_cons.mp hm with hm | hm
    · exact absurd hm.symm (h2 c q found e)
    · rcases List.mem_cons.mp hev' with hev' | hev'
      · rw [hev']; exact h1
      · exact hc c q found e hm hne ev' hev'

theorem pollShape_jobCreateGuarded {κ : Type} {c : κ} {p : String} {job : Job}
    {tail : List (Event κ)} {d : Bool} {e : Option Error} (h : PollShape c p job tail d e) :
    JobCreateGuarded p tail := by
  cases h <;>
    simp [JobCreateGuarded, Event.isCreateJob, List.filter_cons]
  all_goals (intros; assumption)

theorem submitShape_jobCreateGuarded {κ : Type} {lowerRune : Char → Char}
    {t : Task} {hook : MigPlanHook}
    {migHook : MigHook} {c : κ} {tail : List (Event κ)} {d : Bool} {e : Option Error}
    (h : SubmitShape lowerRune t hook migHook c tail d e) : JobCreateGuarded t.Phase tail := by
  cases h with
  | custom tail d e hc hp => exact (pollShape_jobCreateGuarded hp)
  | decodeFailed e hc hd => exact jobCreateGuarded_of_no_job_event _ _ (by simp) (by simp)
  | artifactCreated configMap out tail d e hc hd hp =>
    exact jobCreateGuarded_cons _
      (jobCreateGuarded_cons _ (pollShape_jobCreateGuarded hp) rfl (by simp)) rfl (by simp)
  | artifactCreateFailed configMap out e hc hd =>
    exact jobCreateGuarded_of_no_job_event _ _ (by simp [Event.isCreateJob]) (by simp)
  | artifactLookupFailed configMap found e hc hd =>
    exact jobCreateGuarded_of_no_job_event _ _ (by simp [Event.isCreateJob]) (by simp)
  | artifactFound configMap pcm tail d e hc hd hp =>
    exact jobCreateGuarded_cons _ (pollShape_jobCreateGuarded hp) rfl (by simp)

theorem runShape_jobCreateGuarded {κ : Type} {lowerRune : Char → Char} {t : Task}
    {tr : List (Event κ)} {d : Bool}
    {e : Option Error} (h : RunShape lowerRune t tr d e) : JobCreateGuarded t.Phase tr := by
  cases h with
  | noReference hr => exact jobCreateGuarded_of_no_job_event _ _ (by simp) (by simp)
  | getFailed ref migHook e hr =>
    exact jobCreateGuarded_of_no_job_event _ _ (by simp [Event.isCreateJob]) (by simp)
  | destinationFailed ref migHook c e hr ht =>
    exact jobCreateGuarded_of_no_job_event _ _ (by simp [Event.isCreateJob]) (by simp)
  | destination ref migHook c tail d e hr ht hs =>
    exact jobCreateGuarded_cons _
      (jobCreateGuarded_cons _ (submitShape_jobCreateGuarded hs) rfl (by simp)) rfl (by simp)
  | sourceFailed ref migHook c e hr ht =>
    exact jobCreateGuarded_of_no_job_event _ _ (by simp [Event.isCreateJob]) (by simp)
  | source ref migHook c tail d e hr ht hs =>
    exact jobCreateGuarded_cons _
      (jobCreateGuarded_cons _ (submitShape_jobCreateGuarded hs) rfl (by simp)) rfl (by simp)
  | invalidTarget ref migHook hr hd hs =>
    exact jobCreateGuarded_of_no_job_event _ _ (by simp [Event.isCreateJob]) (by simp)

/-- C8: in every call of `runHooks`, in every world, a job `Create` is issued at most once;
it is issued only when the phase-job lookup returned no job and no error; and when that
lookup returned a job (whatever its status counters) or an error, no job is created. -/
theorem runHooks_job_create_guarded {σ κ : Type} (lowerRune : Char → Char)
    (W : World σ κ) (t : Task) (s : σ) :
    ((runHooks lowerRune W t s).trace.filter Event.isCreateJob).length ≤ 1 ∧
      (∀ c job out e, Event.CreateJob c job out e ∈ (runHooks lowerRune W t s).trace →
        Event.GetPhaseJob c t.Phase none none ∈ (runHooks lowerRune W t s).trace) ∧
      (∀ c q found e, Event.GetPhaseJob c q found e ∈ (runHooks lowerRune W t s).trace →
        found ≠ none ∨ e ≠ none →
        ∀ ev ∈ (runHooks lowerRune W t s).trace, ev.isCreateJob = false) :=
  (runShape_jobCreateGuarded (runHooks_shape lowerRune W t s))

theorem runHooks_job_create_guarded_witness :
    ((runHooks sampleLower memoryWorld sampleTask (memoryWith customHook)).trace.filter
        Event.isCreateJob).length = 1 ∧
      Event.GetPhaseJob Cluster.source "PreBackupHooks" none none ∈
        (runHooks sampleLower memoryWorld sampleTask (memoryWith customHook)).trace ∧
      (∀ ev ∈ (runHooks sampleLower memoryWorld sampleTask
          { memoryWith customHook with jobs := [sampleJob 7 0] }).trace,
        ev.isCreateJob = false) :=
  ⟨by decide,
    (runHooks_job_create_guarded sampleLower memoryWorld sampleTask (memoryWith customHook)).2.1
      Cluster.source (baseJobTemplate sampleLower sampleTask sampleBinding customHook)
      { baseJobTemplate sampleLower sampleTask sampleBinding customHook with
        ObjectMeta := { (baseJobTemplate sampleLower sampleTask sampleBinding
            customHook).ObjectMeta with
          Name := "plan-prebackuphooks-x" } }
      none (by decide),
    (runHooks_job_create_guarded sampleLower memoryWorld sampleTask
      { memoryWith customHook with jobs := [sampleJob 7 0] }).2.2
      Cluster.source "PreBackupHooks" (some (sampleJob 7 0)) none (by decide)
      (Or.inl (by decide))⟩

/-! ## Theorems: a job that is still running -/

theorem pollShape_not_get {κ : Type} {c : κ} {p : String} {job : Job}
    {tail : List (Event κ)} {d : Bool} {e : Option Error} (h : PollShape c p job tail d e)
    (n ns : String) (mh : MigHook) (x : Option Error) : Event.Get n ns mh x ∉ tail := by
  cases h <;> simp

theorem submitShape_not_get {κ : Type} {lowerRune : Char → Char} {t : Task} {hook : MigPlanHook}
    {migHook : MigHook} {c : κ} {tail : List (Event κ)} {d : Bool} {e : Option Error}
    (h : SubmitShape lowerRune t hook migHook c tail d e)
    (n ns : String) (mh : MigHook) (x : Option Error) : Event.Get n ns mh x ∉ tail := by
  cases h with
  | custom tail d e hc hp => exact (pollShape_not_get hp) n ns mh x
  | decodeFailed e hc hd => simp
  | artifactCreated configMap out tail d e hc hd hp =>
    simp only [List.mem_cons, reduceCtorEq, false_or]
    exact (pollShape_not_get hp) n ns mh x
  | artifactCreateFailed configMap out e hc hd => simp
  | artifactLookupFailed configMap found e hc hd => simp
  | artifactFound configMap pcm tail d e hc hd hp =>
    simp only [List.mem_cons, reduceCtorEq, false_or]
    exact (pollShape_not_get hp) n ns mh x

theorem pollShape_found_no_create {κ : Type} {c c' : κ} {p p' : String} {job j : Job}
    {tail : List (Event κ)} {d : Bool} {e : Option Error} (h : PollShape c p job tail d e)
    (hm : Event.GetPhaseJob c' p' (some j) none ∈ tail) :
    ∀ ev ∈ tail, ev.isCreate = false := by
  cases h <;> simp at hm <;> simp [Event.isCreate]

theorem submitShape_found_no_create {κ : Type} {lowerRune : Char → Char}
    {t : Task} {hook : MigPlanHook}
    {migHook : MigHook} {c c' : κ} {p' : String} {j : Job}
    {tail : List (Event κ)} {d : Bool} {e : Option Error}
    (h : SubmitShape lowerRune t hook migHook c tail d e)
    (hm : Event.GetPhaseJob c' p' (some j) none ∈ tail) :
    ((∀ c'' q, Event.GetPhaseConfigMap c'' q none none ∉ tail) →
        ∀ ev ∈ tail, ev.isCreate = false) ∧
      (migHook.Spec.Custom = true → ∀ ev ∈ tail, ev.isCreate = false) := by
  cases h with
  | custom tail d e hc hp =>
    exact ⟨fun _ => pollShape_found_no_create hp hm, fun _ => pollShape_found_no_create hp hm⟩
  | decodeFailed e hc hd => simp at hm
  | artifactCreated configMap out tail d e hc hd hp =>
    refine ⟨fun h => absurd (List.mem_cons_self _ _) (h c t.Phase), fun h => ?_⟩
    rw [hc] at h
    exact absurd h (by decide)
  | artifactCreateFailed configMap out e hc hd => simp at hm
  | artifactLookupFailed configMap found e hc hd => simp at hm
  | artifactFound configMap pcm tail d e hc hd hp =>
    simp only [List.mem_cons, reduceCtorEq, false_or] at hm
    have hn := (pollShape_found_no_create hp) hm
    refine ⟨fun _ => ?_, fun _ => ?_⟩ <;>
    · intro ev hev
      rcases List.mem_cons.mp hev with hev | hev
      · rw [hev]; rfl
      · exact hn ev hev

theorem runShape_found_no_create {κ : Type} {lowerRune : Char → Char} {t : Task} {c' : κ}
    {p' : String} {j : Job}
    {tr : List (Event κ)} {d : Bool} {e : Option Error}
    (h : RunShape lowerRune t tr d e)
    (hm : Event.GetPhaseJob c' p' (some j) none ∈ tr) :
    ((∀ c'' q, Event.GetPhaseConfigMap c'' q none none ∉ tr) →
        ∀ ev ∈ tr, ev.isCreate = false) ∧
      (∀ n ns mh, Event.Get n ns mh none ∈ tr → mh.Spec.Custom = true →
        ∀ ev ∈ tr, ev.isCreate = false) := by
  cases h with
  | noReference hr => simp at hm
  | getFailed ref migHook e hr => simp at hm
  | destinationFailed ref migHook c e hr ht => simp at hm
  | destination ref migHook c tail d e hr ht hs =>
    simp only [List.mem_cons, reduceCtorEq, false_or] at hm
    obtain ⟨h1, h2⟩ := (submitShape_found_no_create hs) hm
    have lift : (∀ ev ∈ tail, ev.isCreate = false) →
        ∀ ev ∈ Event.Get ref.Name ref.Namespace migHook none ::
          Event.getDestinationClient c none :: tail, ev.isCreate = false := by
      intro hn ev hev
      rcases List.mem_cons.mp hev with hev | hev
      · rw [hev]; rfl
      · rcases List.mem_cons.mp hev with hev | hev
        · rw [hev]; rfl
        · exact hn ev hev
    refine ⟨fun h => lift (h1 fun c'' q hq => h c'' q ?_), fun n ns mh hg hc => lift (h2 ?_)⟩
    · exact List.mem_cons_of_mem _ (List.mem_cons_of_mem _ hq)
    · simp only [List.mem_cons, reduceCtorEq, false_or] at hg
      rcases hg with hg | hg
      · simp only [Event.Get.injEq] at hg
        rw [← hg.2.2.1]; exact hc
      · exact absurd hg ((submitShape_not_get hs) n ns mh none)
  | sourceFailed ref migHook c e hr ht => simp at hm
  | source ref migHook c tail d e hr ht hs =>
    simp only [List.mem_cons, reduceCtorEq, false_or] at hm
    obtain ⟨h1, h2⟩ := (submitShape_found_no_create hs) hm
    have lift : (∀ ev ∈ tail, ev.isCreate = false) →
        ∀ ev ∈ Event.Get ref.Name ref.Namespace migHook none ::
          Event.getSourceClient c none :: tail, ev.isCreate = false := by
      intro hn ev hev
      rcases List.mem_cons.mp hev with hev | hev
      · rw [hev]; rfl
      · rcases List.mem_cons.mp hev with hev | hev
        · rw [hev]; rfl
        · exact hn ev hev
    refine ⟨fun h => lift (h1 fun c'' q hq => h c'' q ?_), fun n ns mh hg hc => lift (h2 ?_)⟩
    · exact List.mem_cons_of_mem _ (List.mem_cons_of_mem _ hq)
    · simp only [List.mem_cons, reduceCtorEq, false_or] at hg
      rcases hg with hg | hg
      · simp only [Event.Get.injEq] at hg
        rw [← hg.2.2.1]; exact hc
      · exact absurd hg ((submitShape_not_get hs) n ns mh none)
  | invalidTarget ref migHook hr hd hs => simp at hm

theorem not_mem_of_forall_ne {κ : Type} [DecidableEq κ] (tr : List (Event κ))
    (h : ∀ ev ∈ tr, (match ev with
      | .GetPhaseConfigMap _ _ none none => false
      | _ => true) = true) (c : κ) (q : String) :
    Event.GetPhaseConfigMap c q none none ∉ tr := by
  intro hm
  have := h _ hm
  simp at this

/-- C7, as stated, fails: with a playbook hook (valid target, decodable playbook) and a
store that holds the job of the phase with `failed = 0` and `succeeded = 0` but no artifact,
the call creates the artifact. -/
theorem runHooks_running_job_creates_artifact :
    (runHooks sampleLower memoryWorld sampleTask
        { memoryWith playbookHook with jobs := [sampleJob 0 0] }).trace.filter Event.isCreate =
      [.CreateConfigMap Cluster.destination
        { sampleConfigMap with ObjectMeta := { sampleConfigMap.ObjectMeta with Name := "" } }
        sampleConfigMap none] ∧
    Event.GetPhaseJob Cluster.destination "PreBackupHooks" (some (sampleJob 0 0)) none ∈
      (runHooks sampleLower memoryWorld sampleTask
        { memoryWith playbookHook with jobs := [sampleJob 0 0] }).trace ∧
    ¬ ∀ ev ∈ (runHooks sampleLower memoryWorld sampleTask
        { memoryWith playbookHook with jobs := [sampleJob 0 0] }).trace, ev.isCreate = false := by
  decide

/-- C7, amended: whenever the phase-job lookup of a call of `runHooks` returns, without
error, an existing job with `failed = 0` and `succeeded = 0`, the call creates no job and
returns `(false, nil)`; it creates no object at all when the artifact lookup did not come
back empty (it found an artifact, or was not made), in particular for every custom hook.
(When the artifact lookup finds nothing, the artifact is created.) -/
theorem runHooks_running_job {σ κ : Type} (lowerRune : Char → Char) (W : World σ κ)
    (t : Task) (s : σ) (c : κ)
    (p : String) (j : Job)
    (h : Event.GetPhaseJob c p (some j) none ∈ (runHooks lowerRune W t s).trace)
    (hf : j.Status.Failed = 0) (hs : j.Status.Succeeded = 0) :
    (runHooks lowerRune W t s).done = false ∧ (runHooks lowerRune W t s).err = none ∧
      (∀ ev ∈ (runHooks lowerRune W t s).trace, ev.isCreateJob = false) ∧
      ((∀ c' q, Event.GetPhaseConfigMap c' q none none ∉ (runHooks lowerRune W t s).trace) →
        ∀ ev ∈ (runHooks lowerRune W t s).trace, ev.isCreate = false) ∧
      (∀ n ns mh, Event.Get n ns mh none ∈ (runHooks lowerRune W t s).trace →
          mh.Spec.Custom = true →
        ∀ ev ∈ (runHooks lowerRune W t s).trace, ev.isCreate = false) := by
  have hres := (runShape_found_result (runHooks_shape lowerRune W t s)) h
  rw [hf, hs] at hres
  simp only [ge_iff_le, show ¬ ((5 : Int) ≤ 0) by decide, show ¬ ((0 : Int) = 1) by decide,
    if_false, Prod.mk.injEq] at hres
  obtain ⟨h1, h2⟩ := (runShape_found_no_create (runHooks_shape lowerRune W t s)) h
  exact ⟨hres.1, hres.2,
    (runShape_jobCreateGuarded (runHooks_shape lowerRune W t s)).2.2 c p (some j) none h
      (Or.inl (by simp)), h1, h2⟩

theorem runHooks_running_job_witness :
    (runHooks sampleLower memoryWorld sampleTask
        { memoryWith playbookHook with
          configMaps := [sampleConfigMap], jobs := [sampleJob 0 0] }).done = false ∧
    (runHooks sampleLower memoryWorld sampleTask
        { memoryWith playbookHook with
          configMaps := [sampleConfigMap], jobs := [sampleJob 0 0] }).err = none ∧
    (∀ ev ∈ (runHooks sampleLower memoryWorld sampleTask
        { memoryWith playbookHook with
          configMaps := [sampleConfigMap], jobs := [sampleJob 0 0] }).trace,
      ev.isCreate = false) :=
  have h := runHooks_running_job sampleLower memoryWorld sampleTask
    { memoryWith playbookHook with configMaps := [sampleConfigMap], jobs := [sampleJob 0 0] }
    Cluster.destination "PreBackupHooks" (sampleJob 0 0) (by decide) (by decide) (by decide)
  ⟨h.1, h.2.1, h.2.2.2.1 (not_mem_of_forall_ne _ (by decide))⟩

/-! ## Theorems: propagation of errors -/

theorem configMapTemplate_of_decode_error (lowerRune : Char → Char) (t : Task)
    (hook : MigPlanHook) (migHook : MigHook)
    (x : Error) (h : DecodeString migHook.Spec.Playbook = .error x) :
    configMapTemplate lowerRune t hook migHook = .error x := by
  simp only [configMapTemplate, h]

theorem pollShape_errors_propagate {κ : Type} {c : κ} {p : String} {job : Job}
    {tail : List (Event κ)} {d : Bool} {e : Option Error} (h : PollShape c p job tail d e) :
    (d = true → e = none) ∧
      (∀ ev ∈ tail, ∀ x, ev.err = some x → d = false ∧ e = some x) := by
  cases h <;> simp [Event.err]

theorem submitShape_errors_propagate {κ : Type} {lowerRune : Char → Char}
    {t : Task} {hook : MigPlanHook}
    {migHook : MigHook} {c : κ} {tail : List (Event κ)} {d : Bool} {e : Option Error}
    (h : SubmitShape lowerRune t hook migHook c tail d e) :
    (d = true → e = none) ∧
      (∀ ev ∈ tail, ∀ x, ev.err = some x → d = false ∧ e = some x) ∧
      (migHook.Spec.Custom = false → ∀ x, DecodeString migHook.Spec.Playbook = .error x →
        d = false ∧ e = some x) := by
  cases h with
  | custom tail d e hc hp =>
    refine ⟨(pollShape_errors_propagate hp).1, (pollShape_errors_propagate hp).2, fun h => ?_⟩
    rw [hc] at h
    exact absurd h (by decide)
  | decodeFailed e hc hd =>
    refine ⟨by simp, by simp, fun _ x hx => ?_⟩
    rw [configMapTemplate_of_decode_error lowerRune t hook migHook x hx] at hd
    simp only [Except.error.injEq] at hd
    rw [hd]
    exact ⟨rfl, rfl⟩
  | artifactCreated configMap out tail d e hc hd hp =>
    refine ⟨(pollShape_errors_propagate hp).1, ?_, fun _ x hx => ?_⟩
    · intro ev hev x hx
      simp only [List.mem_cons] at hev
      rcases hev with hev | hev | hev
      · rw [hev] at hx; simp [Event.err] at hx
      · rw [hev] at hx; simp [Event.err] at hx
      · exact (pollShape_errors_propagate hp).2 ev hev x hx
    · rw [configMapTemplate_of_decode_error lowerRune t hook migHook x hx] at hd
      simp at hd
  | artifactCreateFailed configMap out e hc hd =>
    refine ⟨by simp, by simp [Event.err], fun _ x hx => ?_⟩
    rw [configMapTemplate_of_decode_error lowerRune t hook migHook x hx] at hd
    simp at hd
  | artifactLookupFailed configMap found e hc hd =>
    refine ⟨by simp, by simp [Event.err], fun _ x hx => ?_⟩
    rw [configMapTemplate_of_decode_error lowerRune t hook migHook x hx] at hd
    simp at hd
  | artifactFound configMap pcm tail d e hc hd hp =>
    refine ⟨(pollShape_errors_propagate hp).1, ?_, fun _ x hx => ?_⟩
    · intro ev hev x hx
      simp only [List.mem_cons] at hev
      rcases hev with hev | hev
      · rw [hev] at hx; simp [Event.err] at hx
      · exact (pollShape_errors_propagate hp).2 ev hev x hx
    · rw [configMapTemplate_of_decode_error lowerRune t hook migHook x hx] at hd
      simp at hd

theorem runShape_errors_propagate {κ : Type} {lowerRune : Char → Char} {t : Task}
    {tr : List (Event κ)} {d : Bool}
    {e : Option Error} (h : RunShape lowerRune t tr d e) :
    (d = true → e = none) ∧
      (∀ ev ∈ tr, ∀ x, ev.err = some x → d = false ∧ e = some x) ∧
      (∀ n ns mh, Event.Get n ns mh none ∈ tr →
        mh.Spec.TargetCluster ≠ "destination" → mh.Spec.TargetCluster ≠ "source" →
        d = false ∧ e = some (.errorf ("targetCluster must be 'source' or 'destination'. " ++
          mh.Spec.TargetCluster ++ " unknown"))) ∧
      (∀ n ns mh, Event.Get n ns mh none ∈ tr →
        (∃ c, Event.getDestinationClient c none ∈ tr ∨
          Event.getSourceClient c none ∈ tr) →
        mh.Spec.Custom = false → ∀ x, DecodeString mh.Spec.Playbook = .error x →
        d = false ∧ e = some x) := by
  cases h with
  | noReference hr => simp
  | getFailed ref migHook e hr => simp [Event.err]
  | destinationFailed ref migHook c e hr ht =>
    refine ⟨by simp, by simp [Event.err], ?_, by simp⟩
    intro n ns mh hg hd
    simp only [List.mem_cons, Event.Get.injEq, reduceCtorEq, List.mem_nil_iff, or_false, and_true]
      at hg
    rw [hg.2.2] at hd
    exact absurd ht hd
  | destination ref migHook c tail d e hr ht hs =>
    have hmh : ∀ n ns mh, Event.Get n ns mh none ∈
        Event.Get ref.Name ref.Namespace migHook none ::
          Event.getDestinationClient c none :: tail → mh = migHook := by
      intro n ns mh hg
      simp only [List.mem_cons, reduceCtorEq, false_or] at hg
      rcases hg with hg | hg
      · simp only [Event.Get.injEq] at hg
        exact hg.2.2.1
      · exact absurd hg ((submitShape_not_get hs) n ns mh none)
    refine ⟨(submitShape_errors_propagate hs).1, ?_, ?_, ?_⟩
    · intro ev hev x hx
      simp only [List.mem_cons] at hev
      rcases hev with hev | hev | hev
      · rw [hev] at hx; simp [Event.err] at hx
      · rw [hev] at hx; simp [Event.err] at hx
      · exact (submitShape_errors_propagate hs).2.1 ev hev x hx
    · intro n ns mh hg hd
      rw [hmh n ns mh hg] at hd
      exact absurd ht hd
    · intro n ns mh hg _ hc x hx
      rw [hmh n ns mh hg] at hc hx
      exact (submitShape_errors_propagate hs).2.2 hc x hx
  | sourceFailed ref migHook c e hr ht =>
    refine ⟨by simp, by simp [Event.err], ?_, by simp⟩
    intro n ns mh hg _ hd
    simp only [List.mem_cons, Event.Get.injEq, reduceCtorEq, List.mem_nil_iff, or_false, and_true]
      at hg
    rw [hg.2.2] at hd
    exact absurd ht hd
  | source ref migHook c tail d e hr ht hs =>
    have hmh : ∀ n ns mh, Event.Get n ns mh none ∈
        Event.Get ref.Name ref.Namespace migHook none ::
          Event.getSourceClient c none :: tail → mh = migHook := by
      intro n ns mh hg
      simp only [List.mem_cons, reduceCtorEq, false_or] at hg
      rcases hg with hg | hg
      · simp only [Event.Get.injEq] at hg
        exact hg.2.2.1
      · exact absurd hg ((submitShape_not_get hs) n ns mh none)
    refine ⟨(submitShape_errors_propagate hs).1, ?_, ?_, ?_⟩
    · intro ev hev x hx
      simp only [List.mem_cons] at hev
      rcases hev with hev | hev | hev
      · rw [hev] at hx; simp [Event.err] at hx
      · rw [hev] at hx; simp [Event.err] at hx
      · exact (submitShape_errors_propagate hs).2.1 ev hev x hx
    · intro n ns mh hg _ hd
      rw [hmh n ns mh hg] at hd
      exact absurd ht hd
    · intro n ns mh hg _ hc x hx
      rw [hmh n ns mh hg] at hc hx
      exact (submitShape_errors_propagate hs).2.2 hc x hx
  | invalidTarget ref migHook hr hd hs =>
    refine ⟨by simp, by simp [Event.err], ?_, by simp⟩
    intro n ns mh hg _ _
    simp only [List.mem_singleton, Event.Get.injEq, and_true] at hg
    rw [hg.2.2]
    exact ⟨rfl, rfl⟩

/-- C10: for every input and every behaviour of the stores and of the client resolver,
`runHooks` never returns `done = true` with a non-nil error, and every failing step gives
`(false, err)` with its own error: a call on a store or on the resolver that returned an
error (hook-definition `Get`, client resolution, artifact lookup or create, job lookup or
create), an invalid target cluster, a playbook that does not decode, and a job whose failed
counter reached 5. -/
theorem runHooks_errors_propagate {σ κ : Type} (lowerRune : Char → Char)
    (W : World σ κ) (t : Task) (s : σ) :
    ((runHooks lowerRune W t s).done = true → (runHooks lowerRune W t s).err = none) ∧
      (∀ ev ∈ (runHooks lowerRune W t s).trace, ∀ x, ev.err = some x →
        (runHooks lowerRune W t s).done = false ∧ (runHooks lowerRune W t s).err = some x) ∧
      (∀ n ns mh, Event.Get n ns mh none ∈ (runHooks lowerRune W t s).trace →
        mh.Spec.TargetCluster ≠ "destination" → mh.Spec.TargetCluster ≠ "source" →
        (runHooks lowerRune W t s).done = false ∧
          (runHooks lowerRune W t s).err = some (.errorf
            ("targetCluster must be 'source' or 'destination'. " ++
              mh.Spec.TargetCluster ++ " unknown"))) ∧
      (∀ n ns mh, Event.Get n ns mh none ∈ (runHooks lowerRune W t s).trace →
        (∃ c, Event.getDestinationClient c none ∈ (runHooks lowerRune W t s).trace ∨
          Event.getSourceClient c none ∈ (runHooks lowerRune W t s).trace) →
        mh.Spec.Custom = false → ∀ x, DecodeString mh.Spec.Playbook = .error x →
        (runHooks lowerRune W t s).done = false ∧ (runHooks lowerRune W t s).err = some x) ∧
      (∀ c p j, Event.GetPhaseJob c p (some j) none ∈ (runHooks lowerRune W t s).trace →
        j.Status.Failed ≥ 5 →
        (runHooks lowerRune W t s).done = false ∧
          (runHooks lowerRune W t s).err =
            some (.errorf ("Hook job " ++ j.ObjectMeta.Name ++ " failed."))) := by
  obtain ⟨h1, h2, h3, h4⟩ := (runShape_errors_propagate (runHooks_shape lowerRune W t s))
  refine ⟨h1, h2, h3, h4, ?_⟩
  intro c p j hm h5
  have hres := (runShape_found_result (runHooks_shape lowerRune W t s)) hm
  rw [if_pos h5] at hres
  simp only [Prod.mk.injEq] at hres
  exact hres

theorem runHooks_errors_propagate_witness :
    (runHooks sampleLower memoryWorld sampleTask
        { memoryWith customHook with createJobError := some (.client "rejected") }).done =
      false ∧
    (runHooks sampleLower memoryWorld sampleTask
        { memoryWith customHook with createJobError := some (.client "rejected") }).err =
      some (.client "rejected") :=
  (runHooks_errors_propagate sampleLower memoryWorld sampleTask
    { memoryWith customHook with createJobError := some (.client "rejected") }).2.1
    (Event.CreateJob Cluster.source
        (baseJobTemplate sampleLower sampleTask sampleBinding customHook)
      (baseJobTemplate sampleLower sampleTask sampleBinding customHook) (some (.client "rejected")))
    (by decide) (.client "rejected") rfl

/-! ## Theorems: the config map referenced by the job -/

theorem configMapTemplate_name (lowerRune : Char → Char) (t : Task)
    (hook : MigPlanHook) (migHook : MigHook)
    (configMap : ConfigMap) (h : configMapTemplate lowerRune t hook migHook = .ok configMap) :
    configMap.ObjectMeta.Name = "" := by
  unfold configMapTemplate at h
  split at h
  · simp at h
  · simp only [Except.ok.injEq] at h
    rw [← h]

theorem pollShape_not_artifact_lookup {κ : Type} {c : κ} {p : String} {job : Job}
    {tail : List (Event κ)} {d : Bool} {e : Option Error} (h : PollShape c p job tail d e)
    (c' : κ) (q : String) (found : Option ConfigMap) (x : Option Error) :
    Event.GetPhaseConfigMap c' q found x ∉ tail := by
  cases h <;> simp

theorem pollShape_created_job {κ : Type} {c c' : κ} {p : String} {job j out : Job}
    {x : Option Error} {tail : List (Event κ)} {d : Bool} {e : Option Error}
    (h : PollShape c p job tail d e) (hm : Event.CreateJob c' j out x ∈ tail) : j = job := by
  cases h <;> simp at hm <;> exact hm.2.1

theorem submitShape_found_artifact_job {κ : Type} {lowerRune : Char → Char}
    {t : Task} {hook : MigPlanHook}
    {migHook : MigHook} {c c' c'' : κ} {q : String} {pcm : ConfigMap} {j out : Job}
    {x : Option Error} {tail : List (Event κ)} {d : Bool} {e : Option Error}
    (h : SubmitShape lowerRune t hook migHook c tail d e)
    (hf : Event.GetPhaseConfigMap c' q (some pcm) none ∈ tail)
    (hm : Event.CreateJob c'' j out x ∈ tail) :
    j = playbookJobTemplate lowerRune t hook migHook "" := by
  cases h with
  | custom tail d e hc hp => exact absurd hf ((pollShape_not_artifact_lookup hp) _ _ _ _)
  | decodeFailed e hc hd => simp at hf
  | artifactCreated configMap out tail d e hc hd hp =>
    simp only [List.mem_cons, Event.GetPhaseConfigMap.injEq, reduceCtorEq, and_false,
      false_and, false_or] at hf
    exact absurd hf ((pollShape_not_artifact_lookup hp) _ _ _ _)
  | artifactCreateFailed configMap out e hc hd => simp at hf
  | artifactLookupFailed configMap found e hc hd => simp at hf
  | artifactFound configMap pcm' tail d e hc hd hp =>
    simp only [List.mem_cons, reduceCtorEq, false_or] at hm
    rw [(pollShape_created_job hp) hm, configMapTemplate_name lowerRune t hook migHook configMap hd]

/-- Whenever the artifact lookup of a call of `runHooks` finds an existing artifact, the job
the call submits (if it submits one) is the playbook job built for the config-map name `""`:
its playbook volume does not reference the artifact that was found. -/
theorem runHooks_found_artifact_job {σ κ : Type} (lowerRune : Char → Char)
    (W : World σ κ) (t : Task) (s : σ)
    (c c' : κ) (q : String) (pcm : ConfigMap) (j out : Job) (x : Option Error)
    (hf : Event.GetPhaseConfigMap c q (some pcm) none ∈ (runHooks lowerRune W t s).trace)
    (hm : Event.CreateJob c' j out x ∈ (runHooks lowerRune W t s).trace) :
    j.Spec.Template.Spec.Volumes = [{ Name := "playbook", ConfigMap := some "" }] := by
  have h := runHooks_shape lowerRune W t s
  revert hf hm
  generalize (runHooks lowerRune W t s).trace = tr, (runHooks lowerRune W t s).done = d,
    (runHooks lowerRune W t s).err = e at h
  intro hf hm
  cases h with
  | noReference hr => simp at hf
  | getFailed ref migHook e hr => simp at hf
  | destinationFailed ref migHook c e hr ht => simp at hf
  | destination ref migHook c tail d e hr ht hs =>
    simp only [List.mem_cons, reduceCtorEq, false_or] at hf hm
    rw [(submitShape_found_artifact_job hs) hf hm]
    rfl
  | sourceFailed ref migHook c e hr ht => simp at hf
  | source ref migHook c tail d e hr ht hs =>
    simp only [List.mem_cons, reduceCtorEq, false_or] at hf hm
    rw [(submitShape_found_artifact_job hs) hf hm]
    rfl
  | invalidTarget ref migHook hr hd hs => simp at hf

/-- C9, evaluated where it fails.  A first call creates the artifact (the store names it
`plan-prebackuphooks-x`) and fails to create the job.  The next call finds that artifact,
creates nothing but the job, and the playbook volume of the job it submits references the
config-map name `""` (the `Name` of the template built in that call), not the assigned name
of the artifact. -/
theorem runHooks_job_references_empty_name :
    (runHooks sampleLower memoryWorld sampleTask
        { memoryWith playbookHook with createJobError := some (.client "rejected") }).err =
      some (.client "rejected") ∧
    (runHooks sampleLower memoryWorld sampleTask
        { memoryWith playbookHook with createJobError := some (.client "rejected") }).state =
      { memoryWith playbookHook with
        configMaps := [sampleConfigMap], createJobError := some (.client "rejected") } ∧
    sampleConfigMap.ObjectMeta.Name = "plan-prebackuphooks-x" ∧
    Event.GetPhaseConfigMap Cluster.destination "PreBackupHooks" (some sampleConfigMap) none ∈
      (runHooks sampleLower memoryWorld sampleTask
        { memoryWith playbookHook with configMaps := [sampleConfigMap] }).trace ∧
    ((runHooks sampleLower memoryWorld sampleTask
        { memoryWith playbookHook with configMaps := [sampleConfigMap] }).trace.filter
          Event.isCreate).map
        (fun ev => match ev with
          | .CreateJob _ obj _ _ => obj.Spec.Template.Spec.Volumes
          | _ => []) =
      [[{ Name := "playbook", ConfigMap := some "" }]] := by
  decide

/-! ## Theorems: the templates and the custom hook -/

theorem labels_get_set (m : Labels) (k v : String) :
    Labels.get (Labels.set m k v) k = some v ∧
      ∀ k', k' ≠ k → Labels.get (Labels.set m k v) k' = Labels.get m k' := by
  induction m with
  | nil =>
    refine ⟨by simp [Labels.set, Labels.get], fun k' hk' => ?_⟩
    simp [Labels.set, Labels.get, Ne.symm hk']
  | cons a m ih =>
    obtain ⟨a1, a2⟩ := a
    by_cases h : a1 = k
    · refine ⟨by simp [Labels.set, Labels.get, h], fun k' hk' => ?_⟩
      simp [Labels.set, Labels.get, h, Ne.symm hk']
    · refine ⟨by simp [Labels.set, Labels.get, h, ih.1], fun k' hk' => ?_⟩
      simp only [Labels.set, h, if_false, Labels.get]
      rw [ih.2 k' hk']

/-- C11: for a custom hook (`custom = true`) with a valid, resolving target, run against a
store whose phase-job lookup finds nothing and whose job create succeeds, `runHooks` makes no
artifact lookup and no artifact create, creates one job, the base template, whose single
container has the image of the hook definition, no command and no volume mounts, and which
has no volumes, and returns `(false, nil)`.  Nothing is assumed of the playbook text: it is
not decoded, so this holds when it is malformed base64 too. -/
theorem runHooks_custom_first_call {σ κ : Type} (lowerRune : Char → Char) (W : World σ κ) (t : Task)
    (s s1 s2 s3 s4 : σ) (ref : ObjectReference) (migHook : MigHook) (c : κ) (jobOut : Job)
    (hr : (selectHook t.PlanResources.MigPlan.Spec.Hooks t.Phase).Reference = some ref)
    (hG : W.Get s ref.Name ref.Namespace = ((migHook, none), s1))
    (hT : (migHook.Spec.TargetCluster = "destination" ∧
            W.getDestinationClient s1 = ((c, none), s2)) ∨
          (migHook.Spec.TargetCluster = "source" ∧ W.getSourceClient s1 = ((c, none), s2)))
    (hc : migHook.Spec.Custom = true)
    (hJ : W.GetPhaseJob s2 migHook c t.Phase = ((none, none), s3))
    (hK : W.CreateJob s3 c
      (baseJobTemplate lowerRune t
          (selectHook t.PlanResources.MigPlan.Spec.Hooks t.Phase) migHook) =
        ((jobOut, none), s4)) :
    (runHooks lowerRune W t s).done = false ∧ (runHooks lowerRune W t s).err = none ∧
      (runHooks lowerRune W t s).trace.filter Event.isStoreOp =
        [.Get ref.Name ref.Namespace migHook none,
         .GetPhaseJob c t.Phase none none,
         .CreateJob c
           (baseJobTemplate lowerRune t
               (selectHook t.PlanResources.MigPlan.Spec.Hooks t.Phase) migHook)
           jobOut none] ∧
      (baseJobTemplate lowerRune t (selectHook t.PlanResources.MigPlan.Spec.Hooks t.Phase)
          migHook).Spec.Template.Spec.Containers =
        [{ Name := toLower lowerRune (t.PlanResources.MigPlan.Name ++ "-" ++ t.Phase)
           Image := migHook.Spec.Image
           Command := []
           VolumeMounts := [] }] ∧
      (baseJobTemplate lowerRune t (selectHook t.PlanResources.MigPlan.Spec.Hooks t.Phase)
          migHook).Spec.Template.Spec.Volumes = [] ∧
      (runHooks lowerRune W t s).state = s4 := by
  rcases hT with ⟨ht, hR⟩ | ⟨ht, hR⟩
  · have h : runHooks lowerRune W t s =
        ⟨false, none, [.Get ref.Name ref.Namespace migHook none] ++
          [.getDestinationClient c none] ++ [.GetPhaseJob c t.Phase none none] ++
          [.CreateJob c
            (baseJobTemplate lowerRune t (selectHook t.PlanResources.MigPlan.Spec.Hooks t.Phase)
              migHook) jobOut none], s4⟩ := by
      simp only [runHooks, hr, hG, hR, if_pos ht, submitHook, hc, pollJob, hJ, hK, if_true]
    rw [h]
    exact ⟨rfl, rfl, rfl, rfl, rfl, rfl⟩
  · have hd : migHook.Spec.TargetCluster ≠ "destination" := by rw [ht]; decide
    have h : runHooks lowerRune W t s =
        ⟨false, none, [.Get ref.Name ref.Namespace migHook none] ++
          [.getSourceClient c none] ++ [.GetPhaseJob c t.Phase none none] ++
          [.CreateJob c
            (baseJobTemplate lowerRune t (selectHook t.PlanResources.MigPlan.Spec.Hooks t.Phase)
              migHook) jobOut none], s4⟩ := by
      simp only [runHooks, hr, hG, hR, if_neg hd, if_pos ht, submitHook, hc, pollJob, hJ, hK,
        if_true]
    rw [h]
    exact ⟨rfl, rfl, rfl, rfl, rfl, rfl⟩

theorem runHooks_custom_first_call_witness :
    DecodeString customCorruptHook.Spec.Playbook = .error .corruptInput ∧
      (runHooks sampleLower memoryWorld sampleTask (memoryWith customCorruptHook)).done = false ∧
      (runHooks sampleLower memoryWorld sampleTask (memoryWith customCorruptHook)).err = none ∧
      ((runHooks sampleLower memoryWorld sampleTask (memoryWith customCorruptHook)).trace.filter
        Event.isStoreOp).map Event.isCreateJob = [false, false, true] ∧
      (baseJobTemplate sampleLower sampleTask sampleBinding
          customCorruptHook).Spec.Template.Spec.Containers
        = [{ Name := "plan-prebackuphooks", Image := "busybox" }] :=
  have h := runHooks_custom_first_call sampleLower memoryWorld sampleTask
    (memoryWith customCorruptHook) (memoryWith customCorruptHook)
    (memoryWith customCorruptHook) (memoryWith customCorruptHook)
    (memoryWorld.CreateJob (memoryWith customCorruptHook) Cluster.source
      (baseJobTemplate sampleLower sampleTask sampleBinding customCorruptHook)).2
    { Name := "hook", Namespace := "ns" } customCorruptHook Cluster.source
    (memoryWorld.CreateJob (memoryWith customCorruptHook) Cluster.source
      (baseJobTemplate sampleLower sampleTask sampleBinding customCorruptHook)).1.1
    (by decide) (by rfl) (Or.inr ⟨by decide, by rfl⟩) (by rfl) (by rfl) (by rfl)
  ⟨by rfl, h.1, h.2.1, by rw [h.2.2.1]; rfl, by decide⟩

/-- C19, as stated, fails: for the plan `Plan` and the phase `PreBackupHooks` (ASCII names,
on which `sampleLower` is Go `unicode.ToLower`) the container of the base template is named
`plan-prebackuphooks`, not `Plan-PreBackupHooks`. -/
theorem baseJobTemplate_container_name_lowercase :
    sampleTask.PlanResources.MigPlan.Name ++ "-" ++ sampleTask.Phase = "Plan-PreBackupHooks" ∧
      (baseJobTemplate sampleLower sampleTask sampleBinding
          customHook).Spec.Template.Spec.Containers.map
        (fun c => c.Name) = ["plan-prebackuphooks"] ∧
      (baseJobTemplate sampleLower sampleTask sampleBinding
          customHook).Spec.Template.Spec.Containers.map
        (fun c => c.Name) ≠
        [sampleTask.PlanResources.MigPlan.Name ++ "-" ++ sampleTask.Phase] := by
  decide

theorem fixed_of_map_eq_self {α : Type} (f : α → α) (l : List α) (h : l.map f = l) :
    ∀ a ∈ l, f a = a := by
  induction l with
  | nil => simp
  | cons b l ih =>
    simp only [List.map_cons, List.cons.injEq] at h
    intro a ha
    rcases List.mem_cons.mp ha with ha | ha
    · rw [ha]; exact h.1
    · exact ih h.2 a ha

theorem toLower_data (lowerRune : Char → Char) (s : String) :
    (toLower lowerRune s).data = s.data.map lowerRune :=
  rfl

/-- Whenever Go `unicode.ToLower` changes a character of `N + "-" + P`, the container of the
base template is not named `N + "-" + P`. -/
theorem baseJobTemplate_container_name_changed (lowerRune : Char → Char) (t : Task)
    (hook : MigPlanHook) (migHook : MigHook)
    (h : ∃ c ∈ (t.PlanResources.MigPlan.Name ++ "-" ++ t.Phase).data, lowerRune c ≠ c) :
    (baseJobTemplate lowerRune t hook migHook).Spec.Template.Spec.Containers.map
        (fun c => c.Name) ≠ [t.PlanResources.MigPlan.Name ++ "-" ++ t.Phase] := by
  intro heq
  obtain ⟨c, hc, hne⟩ := h
  have h1 : toLower lowerRune (t.PlanResources.MigPlan.Name ++ "-" ++ t.Phase) =
      t.PlanResources.MigPlan.Name ++ "-" ++ t.Phase := by
    simpa [baseJobTemplate] using heq
  have h2 := congrArg String.data h1
  rw [toLower_data] at h2
  exact hne (fixed_of_map_eq_self lowerRune _ h2 c hc)

/-- C19, amended: for every hook binding, hook definition, plan name `N` and phase `P`
(and whatever the rune mapping of Go `unicode.ToLower` is), the job of `baseJobTemplate` has
the execution namespace of the binding, the generated-name prefix
`strings.ToLower(N + "-" + P + "-")` and no name, the correlation labels of the hook plus
`phase = P`, exactly one container, named `strings.ToLower(N + "-" + P)`, with the image of
the definition and no command or volume mounts, no volumes, the restart policy `OnFailure`,
the service account of the binding, and as active deadline the `activeDeadlineSeconds` of the
definition when that is not zero and 1800 otherwise. -/
theorem baseJobTemplate_spec (lowerRune : Char → Char) (t : Task) (hook : MigPlanHook)
    (migHook : MigHook) :
    (baseJobTemplate lowerRune t hook migHook).ObjectMeta.Namespace = hook.ExecutionNamespace ∧
      (baseJobTemplate lowerRune t hook migHook).ObjectMeta.GenerateName =
        toLower lowerRune (t.PlanResources.MigPlan.Name ++ "-" ++ t.Phase ++ "-") ∧
      (baseJobTemplate lowerRune t hook migHook).ObjectMeta.Name = "" ∧
      Labels.get (baseJobTemplate lowerRune t hook migHook).ObjectMeta.Labels
          "phase" = some t.Phase ∧
      (∀ k, k ≠ "phase" →
        Labels.get (baseJobTemplate lowerRune t hook migHook).ObjectMeta.Labels k =
          Labels.get migHook.CorrelationLabels k) ∧
      (baseJobTemplate lowerRune t hook migHook).Spec.Template.Spec.Containers =
        [{ Name := toLower lowerRune (t.PlanResources.MigPlan.Name ++ "-" ++ t.Phase)
           Image := migHook.Spec.Image
           Command := []
           VolumeMounts := [] }] ∧
      (baseJobTemplate lowerRune t hook migHook).Spec.Template.Spec.Volumes = [] ∧
      (baseJobTemplate lowerRune t hook migHook).Spec.Template.Spec.RestartPolicy = "OnFailure" ∧
      (baseJobTemplate lowerRune t hook migHook).Spec.Template.Spec.ServiceAccountName =
        hook.ServiceAccount ∧
      (migHook.Spec.ActiveDeadlineSeconds ≠ 0 →
        (baseJobTemplate lowerRune t hook migHook).Spec.Template.Spec.ActiveDeadlineSeconds =
          some migHook.Spec.ActiveDeadlineSeconds) ∧
      (migHook.Spec.ActiveDeadlineSeconds = 0 →
        (baseJobTemplate lowerRune t hook migHook).Spec.Template.Spec.ActiveDeadlineSeconds =
          some 1800) := by
  refine ⟨rfl, rfl, rfl, (labels_get_set _ _ _).1, (labels_get_set _ _ _).2, rfl, rfl, rfl,
    rfl, ?_, ?_⟩
  · intro h
    simp [baseJobTemplate, h]
  · intro h
    simp [baseJobTemplate, h]

theorem selectHook_last_match (pre post : List MigPlanHook) (b : MigPlanHook)
    (phase : String) (hb : b.Phase ++ "Hooks" = phase)
    (hpost : ∀ h ∈ post, h.Phase ++ "Hooks" ≠ phase) :
    selectHook (pre ++ b :: post) phase = b := by
  induction post using List.reverseRecOn with
  | nil => rw [selectHook_append, if_pos hb]
  | append_singleton l a ih =>
    rw [← List.cons_append, ← List.append_assoc, selectHook_append,
      if_neg (hpost a (by simp))]
    exact ih (fun h hh => hpost h (by simp [hh]))

theorem runHooks_congr {σ κ : Type} (lowerRune : Char → Char) (W : World σ κ) (t t' : Task) (s : σ)
    (hp : t'.Phase = t.Phase)
    (hn : t'.PlanResources.MigPlan.Name = t.PlanResources.MigPlan.Name)
    (hs : selectHook t'.PlanResources.MigPlan.Spec.Hooks t'.Phase =
      selectHook t.PlanResources.MigPlan.Spec.Hooks t.Phase) :
    runHooks lowerRune W t' s = runHooks lowerRune W t s := by
  have hbase : ∀ hook migHook, baseJobTemplate lowerRune t' hook migHook =
      baseJobTemplate lowerRune t hook migHook := by
    intro hook migHook
    simp only [baseJobTemplate, hp, hn]
  have hplay : ∀ hook migHook n, playbookJobTemplate lowerRune t' hook migHook n =
      playbookJobTemplate lowerRune t hook migHook n := by
    intro hook migHook n
    simp only [playbookJobTemplate, hbase]
  have hcm : ∀ hook migHook, configMapTemplate lowerRune t' hook migHook =
      configMapTemplate lowerRune t hook migHook := by
    intro hook migHook
    simp only [configMapTemplate, hp, hn]
  have hpoll : ∀ migHook c job s tr, pollJob W t' migHook c job s tr =
      pollJob W t migHook c job s tr := by
    intro migHook c job s tr
    simp only [pollJob, hp]
  have hsub : ∀ hook migHook c s tr, submitHook lowerRune W t' hook migHook c s tr =
      submitHook lowerRune W t hook migHook c s tr := by
    intro hook migHook c s tr
    simp only [submitHook, hp, hbase, hplay, hcm, hpoll]
  simp only [runHooks, hs, hsub]

/-- C20: when several hook bindings of the plan match the current phase, `runHooks` uses
the last matching binding of the list and ignores the others: the call is the one it would
be with that binding alone in the list.  And when the selected binding has no hook-definition
reference, `runHooks` returns `(true, nil)` without any call on a store or on the resolver,
as when no binding matches. -/
theorem runHooks_last_binding {σ κ : Type} (lowerRune : Char → Char)
    (W : World σ κ) (t : Task) (s : σ) :
    (∀ pre post b, t.PlanResources.MigPlan.Spec.Hooks = pre ++ b :: post →
        b.Phase ++ "Hooks" = t.Phase → (∀ h ∈ post, h.Phase ++ "Hooks" ≠ t.Phase) →
        selectHook t.PlanResources.MigPlan.Spec.Hooks t.Phase = b ∧
          runHooks lowerRune W t s = runHooks lowerRune W (withHooks t [b]) s) ∧
      ((selectHook t.PlanResources.MigPlan.Spec.Hooks t.Phase).Reference = none →
        (runHooks lowerRune W t s).done = true ∧ (runHooks lowerRune W t s).err = none ∧
          (runHooks lowerRune W t s).trace = [] ∧ (runHooks lowerRune W t s).state = s) := by
  refine ⟨?_, ?_⟩
  · intro pre post b hh hb hpost
    have hsel : selectHook t.PlanResources.MigPlan.Spec.Hooks t.Phase = b := by
      rw [hh]
      exact selectHook_last_match pre post b t.Phase hb hpost
    refine ⟨hsel, (runHooks_congr lowerRune W t (withHooks t [b]) s rfl rfl ?_).symm⟩
    rw [hsel]
    show selectHook [b] t.Phase = b
    simp [selectHook, hb]
  · intro hr
    simp [runHooks, hr]

theorem runHooks_last_binding_witness :
    selectHook
        [{ sampleBinding with ExecutionNamespace := "first" },
         { sampleBinding with ExecutionNamespace := "second" },
         { Phase := "PostRestore" }] "PreBackupHooks" =
      { sampleBinding with ExecutionNamespace := "second" } :=
  ((runHooks_last_binding sampleLower memoryWorld
    (withHooks sampleTask
      [{ sampleBinding with ExecutionNamespace := "first" },
       { sampleBinding with ExecutionNamespace := "second" },
       { Phase := "PostRestore" }])
    (memoryWith playbookHook)).1
    [{ sampleBinding with ExecutionNamespace := "first" }] [{ Phase := "PostRestore" }]
    { sampleBinding with ExecutionNamespace := "second" } rfl (by decide) (by decide)).1

/-! ## Theorems: `FindCondition` -/

theorem findFrom_none_iff (name : String) (cs : List Condition) (k : Nat) :
    (findFrom name cs k).2 = none ↔ ∀ c ∈ cs, c.Type' ≠ name := by
  induction cs generalizing k with
  | nil => simp [findFrom]
  | cons c cs ih =>
    by_cases h : c.Type' = name
    · simp [findFrom, h]
    · simp [findFrom, h, ih]

theorem findFrom_fst_of_none (name : String) (cs : List Condition) (k : Nat)
    (h : (findFrom name cs k).2 = none) : (findFrom name cs k).1 = 0 := by
  induction cs generalizing k with
  | nil => simp [findFrom]
  | cons c cs ih =>
    by_cases hc : c.Type' = name
    · simp [findFrom, hc] at h
    · simp only [findFrom, hc, if_false] at h ⊢
      exact ih _ h

theorem findFrom_some (name : String) (cs : List Condition) (k i : Nat) (c : Condition)
    (h : findFrom name cs k = (i, some c)) :
    ∃ j, i = k + j ∧ cs[j]? = some c ∧ c.Type' = name ∧
      ∀ j' < j, ∀ c', cs[j']? = some c' → c'.Type' ≠ name := by
  induction cs generalizing k with
  | nil => simp [findFrom] at h
  | cons a cs ih =>
    by_cases ha : a.Type' = name
    · simp only [findFrom, ha, if_true, Prod.mk.injEq, Option.some.injEq] at h
      refine ⟨0, by omega, by simp [h.2], by rw [← h.2]; exact ha, by intro j' hj'; omega⟩
    · simp only [findFrom, ha, if_false] at h
      obtain ⟨j, hj, hget, hty, hmin⟩ := ih (k + 1) h
      refine ⟨j + 1, by omega, by simpa using hget, hty, ?_⟩
      intro j' hj' c' hc'
      cases j' with
      | zero =>
        simp only [List.getElem?_cons_zero, Option.some.injEq] at hc'
        rw [← hc']; exact ha
      | succ j'' =>
        simp only [List.getElem?_cons_succ] at hc'
        exact hmin j'' (by omega) c' hc'

/-- C17: `FindCondition(T)` returns the `nil` pointer exactly when the set is uninitialized
or has no entry of type `T` (the index is then 0); otherwise it returns the smallest index
`i` with `S[i].Type == T` together with the entry `S[i]` itself.  It yields only this result:
the set is not changed. -/
theorem findCondition_spec (S : Conditions) (T : String) :
    ((FindCondition S T).2 = none ↔
        (S.Conditions = none ∨ ∀ c ∈ entries S, c.Type' ≠ T)) ∧
      ((FindCondition S T).2 = none → (FindCondition S T).1 = 0) ∧
      (∀ i c, FindCondition S T = (i, some c) →
        (entries S)[i]? = some c ∧ c.Type' = T ∧
          ∀ j < i, ∀ c', (entries S)[j]? = some c' → c'.Type' ≠ T) := by
  rcases S with ⟨_ | cs⟩
  · simp [FindCondition, entries]
  · simp only [FindCondition, entries]
    refine ⟨?_, findFrom_fst_of_none T cs 0, ?_⟩
    · rw [findFrom_none_iff]
      simp
    · intro i c h
      obtain ⟨j, hj, hget, hty, hmin⟩ := findFrom_some T cs 0 i c h
      have : i = j := by omega
      subst this
      exact ⟨hget, hty, hmin⟩

/-! ## Theorems: `SetCondition` -/

theorem findFrom_of_first (name : String) (cs : List Condition) (k j : Nat) (c : Condition)
    (hget : cs[j]? = some c) (hty : c.Type' = name)
    (hmin : ∀ j' < j, ∀ c', cs[j']? = some c' → c'.Type' ≠ name) :
    findFrom name cs k = (k + j, some c) := by
  induction cs generalizing k j with
  | nil => simp at hget
  | cons a cs ih =>
    cases j with
    | zero =>
      simp only [List.getElem?_cons_zero, Option.some.injEq] at hget
      subst hget
      simp [findFrom, hty]
    | succ j =>
      have ha : a.Type' ≠ name := hmin 0 (by omega) a (by simp)
      simp only [List.getElem?_cons_succ] at hget
      simp only [findFrom, ha, if_false]
      rw [ih (k + 1) j hget (fun j' hj' c' hc' => hmin (j' + 1) (by omega) c' (by simpa using hc'))]
      congr 1
      omega

theorem set_of_getElem? {α : Type} (l : List α) (i : Nat) (a : α) (h : l[i]? = some a) :
    l.set i a = l := by
  induction l generalizing i with
  | nil => simp
  | cons b l ih =>
    cases i with
    | zero =>
      simp only [List.getElem?_cons_zero, Option.some.injEq] at h
      simp [h]
    | succ i =>
      simp only [List.getElem?_cons_succ] at h
      simp [ih i h]

theorem setCondition_absent (S : Conditions) (c : Condition) (now : Time)
    (h : ∀ e ∈ entries S, e.Type' ≠ c.Type') :
    SetCondition S c now =
      { Conditions := some (entries S ++ [{ c with LastTransitionTime := now }]) } := by
  have hf : findFrom c.Type' (entries S) 0 = (0, none) := by
    have h2 := (findFrom_none_iff c.Type' (entries S) 0).mpr h
    have h1 := findFrom_fst_of_none c.Type' (entries S) 0 h2
    exact Prod.ext h1 h2
  rcases S with ⟨_ | cs⟩ <;> simp only [entries] at hf ⊢ <;>
    simp only [SetCondition, FindCondition, hf]

theorem setCondition_present (S : Conditions) (c : Condition) (now : Time) (i : Nat)
    (found : Condition) (h : FindCondition S c.Type' = (i, some found)) :
    SetCondition S c now =
      { Conditions := some ((entries S).set i (found.Update c now)) } := by
  rcases S with ⟨_ | cs⟩
  · simp [FindCondition] at h
  · simp only [FindCondition] at h
    simp only [SetCondition, FindCondition, h, entries]

theorem update_fields (found c : Condition) (now : Time) (h : found.Type' = c.Type') :
    (found.Update c now).Type' = c.Type' ∧ (found.Update c now).Status = c.Status ∧
      (found.Update c now).Reason = c.Reason ∧ (found.Update c now).Message = c.Message := by
  unfold Condition.Update
  by_cases he : found.Equal c = true
  · rw [if_pos he]
    simp only [Condition.Equal, Bool.and_eq_true, beq_iff_eq] at he
    exact ⟨h, he.1.1.2, he.1.2, he.2⟩
  · rw [if_neg he]
    exact ⟨rfl, rfl, rfl, rfl⟩

/-- C14: when the set (the `nil` and the empty set included) has no entry of the type of
`c`, `SetCondition(c)` yields the entries of the set, in their order, followed by one new
entry with the type, status, reason and message of `c` and the clock reading of the call as
transition time (the transition time of `c` is ignored); the storage is not `nil` afterwards
and the length grows by one. -/
theorem setCondition_appends (S : Conditions) (c : Condition) (now : Time)
    (h : ∀ e ∈ entries S, e.Type' ≠ c.Type') :
    (SetCondition S c now).Conditions =
        some (entries S ++ [{ c with LastTransitionTime := now }]) ∧
      (SetCondition S c now).Conditions ≠ none ∧
      (entries (SetCondition S c now)).length = (entries S).length + 1 := by
  rw [setCondition_absent S c now h]
  simp [entries]

theorem setCondition_appends_witness :
    (SetCondition {} { Type' := "Ready", Status := "True", LastTransitionTime := 99 }
        5).Conditions =
      some [{ Type' := "Ready", Status := "True", LastTransitionTime := 5 }] :=
  (setCondition_appends {} { Type' := "Ready", Status := "True", LastTransitionTime := 99 } 5
    (by decide)).1

/-- C13, as stated, fails: two calls at the same clock reading 7, the second with another
status, leave the stored transition time at 7, which is not strictly later than the time
stored before the second call. -/
theorem setCondition_time_not_later :
    entries (SetCondition {} { Type' := "Ready", Status := "True" } 7) =
        [{ Type' := "Ready", Status := "True", LastTransitionTime := 7 }] ∧
      entries (SetCondition (SetCondition {} { Type' := "Ready", Status := "True" } 7)
          { Type' := "Ready", Status := "False" } 7) =
        [{ Type' := "Ready", Status := "False", LastTransitionTime := 7 }] ∧
      ¬ ((7 : Time) < 7) := by
  decide

/-- C13, amended: when the set holds an entry of type `T` (its first such entry is `old`, at
index `i`) and `c` of type `T` differs from it in status, reason or message,
`SetCondition(c)` replaces that entry, and no other, by one with the type, status, reason and
message of `c` whose transition time is the clock reading of the call; that time is strictly
later than the one stored before whenever the clock reading is. -/
theorem setCondition_overwrites (S : Conditions) (c : Condition) (now : Time) (i : Nat)
    (old : Condition) (h : FindCondition S c.Type' = (i, some old))
    (hd : old.Status ≠ c.Status ∨ old.Reason ≠ c.Reason ∨ old.Message ≠ c.Message) :
    (SetCondition S c now).Conditions =
        some ((entries S).set i { c with LastTransitionTime := now }) ∧
      (entries (SetCondition S c now))[i]? =
        some { c with LastTransitionTime := now } ∧
      (old.LastTransitionTime < now →
        ∃ new, (entries (SetCondition S c now))[i]? = some new ∧
          old.LastTransitionTime < new.LastTransitionTime) := by
  have hne : old.Equal c = false := by
    simp only [Condition.Equal, Bool.and_eq_false_iff, beq_eq_false_iff_ne]
    rcases hd with hd | hd | hd
    · exact Or.inl (Or.inl (Or.inr hd))
    · exact Or.inl (Or.inr hd)
    · exact Or.inr hd
  have hi : i < (entries S).length := by
    obtain ⟨hget, -, -⟩ := (findCondition_spec S c.Type').2.2 i old h
    by_contra hcon
    rw [List.getElem?_eq_none (by omega)] at hget
    exact absurd hget (by simp)
  have hup : old.Update c now = { c with LastTransitionTime := now } := by
    simp [Condition.Update, hne]
  rw [setCondition_present S c now i old h, hup]
  have hget : ((entries S).set i { c with LastTransitionTime := now })[i]? =
      some { c with LastTransitionTime := now } := by
    simp [hi]
  exact ⟨rfl, hget, fun hlt => ⟨{ c with LastTransitionTime := now }, hget, hlt⟩⟩

theorem setCondition_overwrites_witness :
    (SetCondition (SetCondition {} { Type' := "Ready", Status := "True" } 7)
        { Type' := "Ready", Status := "False" } 9).Conditions =
      some [{ Type' := "Ready", Status := "False", LastTransitionTime := 9 }] :=
  (setCondition_overwrites (SetCondition {} { Type' := "Ready", Status := "True" } 7)
    { Type' := "Ready", Status := "False" } 9 0
    { Type' := "Ready", Status := "True", LastTransitionTime := 7 } (by decide)
    (Or.inl (by decide))).1

theorem update_of_same_fields (u c' : Condition) (now : Time)
    (h : u.Type' = c'.Type' ∧ u.Status = c'.Status ∧ u.Reason = c'.Reason ∧
      u.Message = c'.Message) : u.Update c' now = u := by
  have he : u.Equal c' = true := by
    simp [Condition.Equal, h.1, h.2.1, h.2.2.1, h.2.2.2]
  simp [Condition.Update, he]

theorem setCondition_of_stored (cs : List Condition) (i : Nat) (u c' : Condition)
    (now : Time) (hget : cs[i]? = some u)
    (hmin : ∀ j < i, ∀ e, cs[j]? = some e → e.Type' ≠ c'.Type')
    (h : u.Type' = c'.Type' ∧ u.Status = c'.Status ∧ u.Reason = c'.Reason ∧
      u.Message = c'.Message) :
    SetCondition { Conditions := some cs } c' now = { Conditions := some cs } := by
  have hf : FindCondition { Conditions := some cs } c'.Type' = (i, some u) := by
    have := findFrom_of_first c'.Type' cs 0 i u hget h.1 hmin
    simpa [FindCondition] using this
  rw [setCondition_present _ c' now i u hf, update_of_same_fields u c' now h]
  simp only [entries]
  rw [set_of_getElem? cs i u hget]

/-- C12: `SetCondition` is idempotent on the four compared fields: after `SetCondition(c)`,
a call `SetCondition(c')` with the type, status, reason and message of `c` (with any
transition time, at any clock reading) leaves the whole set, the stored transition times
included, as the first call left it. -/
theorem setCondition_idempotent (S : Conditions) (c c' : Condition) (now now' : Time)
    (hT : c'.Type' = c.Type') (hS : c'.Status = c.Status) (hR : c'.Reason = c.Reason)
    (hM : c'.Message = c.Message) :
    SetCondition (SetCondition S c now) c' now' = SetCondition S c now := by
  rcases hf : FindCondition S c.Type' with ⟨i, _ | found⟩
  · have habs : ∀ e ∈ entries S, e.Type' ≠ c.Type' := by
      have h1 := (findCondition_spec S c.Type').1.mp (by rw [hf])
      rcases h1 with h1 | h1
      · intro e he
        simp [entries, h1] at he
      · exact h1
    rw [setCondition_absent S c now habs]
    refine setCondition_of_stored _ (entries S).length { c with LastTransitionTime := now } c'
      now' (by simp) ?_ ⟨hT.symm, hS.symm, hR.symm, hM.symm⟩
    intro j hj e he
    rw [List.getElem?_append_left hj] at he
    rw [hT]
    exact habs e (List.getElem?_mem he)
  · obtain ⟨hget, hty, hmin⟩ := (findCondition_spec S c.Type').2.2 i found hf
    have hi : i < (entries S).length := by
      by_contra hcon
      rw [List.getElem?_eq_none (by omega)] at hget
      exact absurd hget (by simp)
    rw [setCondition_present S c now i found hf]
    obtain ⟨u1, u2, u3, u4⟩ := update_fields found c now hty
    refine setCondition_of_stored _ i (found.Update c now) c' now' (by simp [hi]) ?_
      ⟨by rw [u1, hT], by rw [u2, hS], by rw [u3, hR], by rw [u4, hM]⟩
    intro j hj e he
    rw [List.getElem?_set_ne (by omega)] at he
    rw [hT]
    exact hmin j hj e he

theorem setCondition_idempotent_witness :
    SetCondition
        (SetCondition {} { Type' := "Ready", Status := "True", LastTransitionTime := 1 } 5)
        { Type' := "Ready", Status := "True", LastTransitionTime := 2 } 8 =
      SetCondition {} { Type' := "Ready", Status := "True", LastTransitionTime := 1 } 5 :=
  setCondition_idempotent {} { Type' := "Ready", Status := "True", LastTransitionTime := 1 }
    { Type' := "Ready", Status := "True", LastTransitionTime := 2 } 5 8 rfl rfl rfl rfl

/-! ## Theorems: `DeleteCondition` and the invariant -/

theorem findFrom_remove (name : String) (cs : List Condition) (k : Nat)
    (hnd : (cs.map (fun c => c.Type')).Nodup) :
    (∀ i found, findFrom name cs k = (i, some found) →
        cs.take (i - k) ++ cs.drop (i - k + 1) =
          cs.filter (fun c => decide (c.Type' ≠ name))) ∧
      ((findFrom name cs k).2 = none → cs = cs.filter (fun c => decide (c.Type' ≠ name))) := by
  induction cs generalizing k with
  | nil => simp [findFrom]
  | cons a cs ih =>
    simp only [List.map_cons, List.nodup_cons, List.mem_map, not_exists, not_and] at hnd
    obtain ⟨hna, hnd'⟩ := hnd
    by_cases ha : a.Type' = name
    · have hcs : cs.filter (fun c => decide (c.Type' ≠ name)) = cs := by
        rw [List.filter_eq_self]
        intro c hc
        have := hna c hc
        rw [ha] at this
        simpa using this
      refine ⟨?_, ?_⟩
      · intro i found h
        simp only [findFrom, ha, if_true, Prod.mk.injEq] at h
        rw [← h.1]
        simpa [ha] using hcs.symm
      · intro h
        simp [findFrom, ha] at h
    · obtain ⟨ih1, ih2⟩ := ih (k + 1) hnd'
      refine ⟨?_, ?_⟩
      · intro i found h
        simp only [findFrom, ha, if_false] at h
        obtain ⟨j, hj, -, -, -⟩ := findFrom_some name cs (k + 1) i found h
        have e1 : i - k = (i - (k + 1)) + 1 := by omega
        have := ih1 i found h
        rw [e1]
        simp only [List.take_succ_cons, List.drop_succ_cons, List.cons_append]
        rw [this]
        simp [ha]
      · intro h
        simp only [findFrom, ha, if_false] at h
        have := ih2 h
        simp only [List.filter_cons, ha, ne_eq, not_false_eq_true, decide_True, if_true]
        rw [← this]

theorem deleteStep_eq_filter (cs : List Condition) (name : String)
    (hnd : (cs.map (fun c => c.Type')).Nodup) :
    deleteStep { Conditions := some cs } name =
      { Conditions := some (cs.filter (fun c => decide (c.Type' ≠ name))) } := by
  obtain ⟨h1, h2⟩ := findFrom_remove name cs 0 hnd
  rcases hf : findFrom name cs 0 with ⟨i, _ | found⟩
  · have := h2 (by rw [hf])
    simp only [deleteStep, FindCondition, hf]
    rw [← this]
  · have := h1 i found hf
    simp only [deleteStep, FindCondition, hf]
    rw [← this]
    simp

theorem nodup_filter_types (cs : List Condition) (p : Condition → Bool)
    (hnd : (cs.map (fun c => c.Type')).Nodup) :
    ((cs.filter p).map (fun c => c.Type')).Nodup :=
  hnd.sublist ((List.filter_sublist cs).map _)

theorem foldl_deleteStep_eq_filter (ts : List String) (cs : List Condition)
    (hnd : (cs.map (fun c => c.Type')).Nodup) :
    ts.foldl deleteStep { Conditions := some cs } =
      { Conditions := some (cs.filter (fun c => decide (c.Type' ∉ ts))) } := by
  induction ts generalizing cs with
  | nil => simp
  | cons name ts ih =>
    rw [List.foldl_cons, deleteStep_eq_filter cs name hnd,
      ih _ (nodup_filter_types cs _ hnd), List.filter_filter]
    congr 2
    apply List.filter_congr
    intro c _
    simp [Bool.and_comm]

/-- C15: for a set with at most one entry per type and any list of type names (empty, with
repeated names or with names that are not in the set), `DeleteCondition` leaves exactly the
entries whose type is not named, unchanged and in their order; a `nil` set stays `nil` and a
non-`nil` set stays non-`nil`; with no name, or only names that are not in the set, the set
is left as it is. -/
theorem deleteCondition_eq_filter (S : Conditions) (ts : List String) (h : UniqueTypes S) :
    entries (DeleteCondition S ts) =
        (entries S).filter (fun c => decide (c.Type' ∉ ts)) ∧
      ((DeleteCondition S ts).Conditions = none ↔ S.Conditions = none) ∧
      ((∀ c ∈ entries S, c.Type' ∉ ts) → DeleteCondition S ts = S) := by
  rcases S with ⟨_ | cs⟩
  · simp [DeleteCondition, entries]
  · have hfold := foldl_deleteStep_eq_filter ts cs h
    simp only [DeleteCondition, entries, hfold]
    refine ⟨trivial, by simp, ?_⟩
    intro hno
    have : cs.filter (fun c => decide (c.Type' ∉ ts)) = cs := by
      rw [List.filter_eq_self]
      intro c hc
      simpa using hno c hc
    rw [this]

theorem deleteCondition_eq_filter_witness :
    entries (DeleteCondition
        { Conditions := some [{ Type' := "A" }, { Type' := "B" }, { Type' := "C" }] }
        ["C", "x", "A", "C"]) = [{ Type' := "B" }] :=
  (deleteCondition_eq_filter
    { Conditions := some [{ Type' := "A" }, { Type' := "B" }, { Type' := "C" }] }
    ["C", "x", "A", "C"] (by unfold UniqueTypes; decide)).1

theorem setCondition_uniqueTypes (S : Conditions) (c : Condition) (now : Time)
    (h : UniqueTypes S) : UniqueTypes (SetCondition S c now) := by
  rcases hf : FindCondition S c.Type' with ⟨i, _ | found⟩
  · have habs : ∀ e ∈ entries S, e.Type' ≠ c.Type' := by
      have h1 := (findCondition_spec S c.Type').1.mp (by rw [hf])
      rcases h1 with h1 | h1
      · intro e he
        simp [entries, h1] at he
      · exact h1
    rw [setCondition_absent S c now habs]
    simp only [UniqueTypes, entries, List.map_append, List.map_cons, List.map_nil]
    rw [List.nodup_append]
    refine ⟨h, by simp, ?_⟩
    intro a ha hb
    simp only [List.mem_singleton] at hb
    simp only [List.mem_map] at ha
    obtain ⟨e, he, hea⟩ := ha
    exact habs e he (by rw [hea, hb])
  · obtain ⟨hget, hty, -⟩ := (findCondition_spec S c.Type').2.2 i found hf
    rw [setCondition_present S c now i found hf]
    show (((entries S).set i (found.Update c now)).map (fun c => c.Type')).Nodup
    rw [List.map_set, set_of_getElem?]
    · exact h
    · rw [List.getElem?_map, hget, (update_fields found c now hty).1, ← hty]
      rfl

theorem deleteCondition_uniqueTypes (S : Conditions) (ts : List String)
    (h : UniqueTypes S) : UniqueTypes (DeleteCondition S ts) := by
  unfold UniqueTypes
  rw [(deleteCondition_eq_filter S ts h).1]
  exact nodup_filter_types _ _ h

/-- C16: the invariant `at most one condition per type` is preserved by every operation:
by `SetCondition(c)` for any `c` at any clock reading and by `DeleteCondition` for any type
names; hence every set reached from the `nil` set or from the empty set by any sequence of
these calls has pairwise distinct types. -/
theorem uniqueTypes_preserved :
    (∀ S c now, UniqueTypes S → UniqueTypes (SetCondition S c now)) ∧
      (∀ S ts, UniqueTypes S → UniqueTypes (DeleteCondition S ts)) ∧
      (∀ ops : List ConditionOp, UniqueTypes (ops.foldl ConditionOp.run {})) ∧
      (∀ ops : List ConditionOp,
        UniqueTypes (ops.foldl ConditionOp.run { Conditions := some [] })) := by
  have step : ∀ (ops : List ConditionOp) (S : Conditions), UniqueTypes S →
      UniqueTypes (ops.foldl ConditionOp.run S) := by
    intro ops
    induction ops with
    | nil => intro S h; exact h
    | cons op ops ih =>
      intro S h
      rw [List.foldl_cons]
      apply ih
      cases op with
      | set c now => exact setCondition_uniqueTypes S c now h
      | delete ts => exact deleteCondition_uniqueTypes S ts h
  refine ⟨setCondition_uniqueTypes, deleteCondition_uniqueTypes, fun ops => step ops _ ?_,
    fun ops => step ops _ ?_⟩ <;> simp [UniqueTypes, entries]

theorem uniqueTypes_preserved_witness :
    UniqueTypes (SetCondition
      (DeleteCondition (SetCondition {} { Type' := "Ready", Status := "True" } 5) ["Ready"])
      { Type' := "Ready", Status := "False" } 9) :=
  uniqueTypes_preserved.2.2.1
    [.set { Type' := "Ready", Status := "True" } 5, .delete ["Ready"],
      .set { Type' := "Ready", Status := "False" } 9]

/-! ## Theorems: base64 -/

theorem b64Value_b64Char : ∀ n, n < 64 → b64Value (b64Char n) = some n := by
  decide

theorem quantumValue_four (d0 d1 d2 d3 : Nat) (h1 : d1 < 64) (h2 : d2 < 64)
    (h3 : d3 < 64) :
    quantumValue [d0, d1, d2, d3] = d0 * 262144 + d1 * 4096 + d2 * 64 + d3 := by
  simp only [quantumValue, List.getD_cons_zero, List.getD_cons_succ, Nat.shiftLeft_eq]
  have e1 : d0 * 2 ^ 18 ||| d1 * 2 ^ 12 = 2 ^ 12 * (d0 * 64 + d1) := by
    rw [show d0 * 2 ^ 18 = 2 ^ 18 * d0 by ring,
      ← Nat.mul_add_lt_is_or (show d1 * 2 ^ 12 < 2 ^ 18 by omega)]
    ring
  have e2 : 2 ^ 12 * (d0 * 64 + d1) ||| d2 * 2 ^ 6 = 2 ^ 6 * (d0 * 4096 + d1 * 64 + d2) := by
    rw [← Nat.mul_add_lt_is_or (show d2 * 2 ^ 6 < 2 ^ 12 by omega)]
    ring
  rw [e1, e2, ← Nat.mul_add_lt_is_or (show d3 < 2 ^ 6 by omega)]
  ring

theorem quantumBytes_four (a b c : Nat) (ha : a < 256) (hb : b < 256) (hc : c < 256) :
    quantumBytes [a / 4, a % 4 * 16 + b / 16, b % 16 * 4 + c / 64, c % 64] = [a, b, c] := by
  simp only [quantumBytes, quantumValue_four (a / 4) (a % 4 * 16 + b / 16)
    (b % 16 * 4 + c / 64) (c % 64) (by omega) (by omega) (by omega),
    Nat.shiftRight_eq_div_pow, List.length_cons, List.length_nil]
  simp only [Nat.reduceAdd, Nat.reduceSub, List.take_succ_cons, List.take_zero, Nat.reducePow]
  congr 1
  · omega
  · congr 1
    · omega
    · congr 1
      omega

theorem quantumBytes_three (a b : Nat) (ha : a < 256) (hb : b < 256) :
    quantumBytes [a / 4, a % 4 * 16 + b / 16, b % 16 * 4] = [a, b] := by
  have hv : quantumValue [a / 4, a % 4 * 16 + b / 16, b % 16 * 4] =
      quantumValue [a / 4, a % 4 * 16 + b / 16, b % 16 * 4, 0] := by
    simp [quantumValue]
  simp only [quantumBytes, hv, quantumValue_four (a / 4) (a % 4 * 16 + b / 16)
    (b % 16 * 4) 0 (by omega) (by omega) (by omega),
    Nat.shiftRight_eq_div_pow, List.length_cons, List.length_nil]
  simp only [Nat.reduceAdd, Nat.reduceSub, List.take_succ_cons, List.take_zero, Nat.reducePow]
  congr 1
  · omega
  · congr 1
    omega

theorem quantumBytes_two (a : Nat) (ha : a < 256) :
    quantumBytes [a / 4, a % 4 * 16] = [a] := by
  have hv : quantumValue [a / 4, a % 4 * 16] = quantumValue [a / 4, a % 4 * 16, 0, 0] := by
    simp [quantumValue]
  simp only [quantumBytes, hv, quantumValue_four (a / 4) (a % 4 * 16) 0 0 (by omega) (by omega)
    (by omega), Nat.shiftRight_eq_div_pow, List.length_cons, List.length_nil]
  simp only [Nat.reduceAdd, Nat.reduceSub, List.take_succ_cons, List.take_zero, Nat.reducePow]
  congr 1
  omega

theorem decodeLoop_digit (n : Nat) (hn : n < 64) (cs : List Char) (dbuf acc : List Nat) :
    decodeLoop (b64Char n :: cs) dbuf acc =
      if dbuf.length = 3 then decodeLoop cs [] (acc ++ quantumBytes (dbuf ++ [n]))
      else decodeLoop cs (dbuf ++ [n]) acc := by
  rw [decodeLoop, b64Value_b64Char n hn]

theorem decodeLoop_padding_two (d0 d1 : Nat) (acc : List Nat) :
    decodeLoop ['=', '='] [d0, d1] acc = .ok (acc ++ quantumBytes [d0, d1]) := by
  rw [decodeLoop]
  simp [isNewline, skipNewlines, b64Value]

theorem decodeLoop_padding_one (d0 d1 d2 : Nat) (acc : List Nat) :
    decodeLoop ['='] [d0, d1, d2] acc = .ok (acc ++ quantumBytes [d0, d1, d2]) := by
  rw [decodeLoop]
  simp [isNewline, skipNewlines, b64Value]

theorem decodeLoop_encodeBytes (bytes : List Nat) (acc : List Nat)
    (h : ∀ x ∈ bytes, x < 256) :
    decodeLoop (encodeBytes bytes) [] acc = .ok (acc ++ bytes) := by
  induction bytes using encodeBytes.induct generalizing acc with
  | case1 => simp [encodeBytes, decodeLoop]
  | case2 a =>
    have ha : a < 256 := h a (by simp)
    have h0 : a / 4 < 64 := by omega
    have h1 : a % 4 * 16 < 64 := by omega
    simp only [encodeBytes, decodeLoop_digit _ h0, decodeLoop_digit _ h1, List.length_nil,
      List.length_cons, List.nil_append, List.cons_append, Nat.reduceAdd, Nat.reduceEqDiff,
      OfNat.zero_ne_ofNat, if_false, decodeLoop_padding_two, quantumBytes_two a ha]
  | case3 a b =>
    have ha : a < 256 := h a (by simp)
    have hb : b < 256 := h b (by simp)
    have h0 : a / 4 < 64 := by omega
    have h1 : a % 4 * 16 + b / 16 < 64 := by omega
    have h2 : b % 16 * 4 < 64 := by omega
    simp only [encodeBytes, decodeLoop_digit _ h0, decodeLoop_digit _ h1,
      decodeLoop_digit _ h2, List.length_nil, List.length_cons, List.nil_append,
      List.cons_append, Nat.reduceAdd, Nat.reduceEqDiff, OfNat.zero_ne_ofNat, if_false,
      decodeLoop_padding_one, quantumBytes_three a b ha hb]
  | case4 a b c rest ih =>
    have ha : a < 256 := h a (by simp)
    have hb : b < 256 := h b (by simp)
    have hc : c < 256 := h c (by simp)
    have h0 : a / 4 < 64 := by omega
    have h1 : a % 4 * 16 + b / 16 < 64 := by omega
    have h2 : b % 16 * 4 + c / 64 < 64 := by omega
    have h3 : c % 64 < 64 := by omega
    simp only [encodeBytes, decodeLoop_digit _ h0, decodeLoop_digit _ h1,
      decodeLoop_digit _ h2, decodeLoop_digit _ h3, List.length_nil, List.length_cons,
      List.nil_append, List.cons_append, Nat.reduceAdd, Nat.reduceEqDiff,
      OfNat.zero_ne_ofNat, if_false, if_true, quantumBytes_four a b c ha hb hc]
    rw [ih _ (fun x hx => h x (by simp [hx]))]
    simp

theorem decodeString_encodeToString (bytes : List Nat) (h : ∀ x ∈ bytes, x < 256) :
    DecodeString (EncodeToString bytes) = .ok bytes := by
  simp [DecodeString, EncodeToString, decodeLoop_encodeBytes bytes [] h]

theorem b64Value_A : b64Value 'A' = some 0 := by decide

theorem b64Value_pad : b64Value '=' = none := by decide

theorem b64Value_newline (c : Char) (h : isNewline c = true) : b64Value c = none := by
  simp only [isNewline, Bool.or_eq_true, decide_eq_true_eq] at h
  rcases h with h | h <;> rw [h] <;> decide

theorem filter_skipNewlines (cs : List Char) :
    (skipNewlines cs).filter (fun c => !isNewline c) = cs.filter (fun c => !isNewline c) := by
  induction cs with
  | nil => rfl
  | cons c cs ih =>
    by_cases h : isNewline c = true
    · simp [skipNewlines, h, ih]
    · simp [skipNewlines, h]

theorem skipNewlines_head (cs : List Char) (c : Char) (rest : List Char)
    (h : skipNewlines cs = c :: rest) : isNewline c = false := by
  induction cs with
  | nil => simp [skipNewlines] at h
  | cons a cs ih =>
    by_cases ha : isNewline a = true
    · simp only [skipNewlines, ha, if_true] at h
      exact ih h
    · simp only [skipNewlines, ha] at h
      simp only [Bool.false_eq_true, if_false, List.cons.injEq] at h
      rw [← h.1]
      simpa using ha

theorem filter_of_skipNewlines_nil (cs : List Char) (h : skipNewlines cs = []) :
    cs.filter (fun c => !isNewline c) = [] := by
  rw [← filter_skipNewlines, h]
  rfl

theorem filter_of_skipNewlines_cons (cs : List Char) (c : Char) (rest : List Char)
    (h : skipNewlines cs = c :: rest) :
    cs.filter (fun c => !isNewline c) = c :: rest.filter (fun c => !isNewline c) := by
  rw [← filter_skipNewlines, h]
  simp [skipNewlines_head cs c rest h]

theorem wellFormed_digit (j : Nat) (hj : j < 3) (c : Char) (v : Nat)
    (hc : b64Value c = some v) (r : List Char) :
    wellFormed (List.replicate j 'A' ++ c :: r) =
      wellFormed (List.replicate (j + 1) 'A' ++ r) := by
  have hj' : j = 0 ∨ j = 1 ∨ j = 2 := by omega
  rcases hj' with rfl | rfl | rfl <;>
    rcases r with _ | ⟨x, _ | ⟨y, _ | ⟨z, r⟩⟩⟩ <;>
    simp [wellFormed, hc, b64Value_A, List.replicate]

theorem wellFormed_last_digit (c : Char) (v : Nat) (hc : b64Value c = some v)
    (r : List Char) :
    wellFormed (List.replicate 3 'A' ++ c :: r) = wellFormed r := by
  have hne : c ≠ '=' := by
    intro h
    rw [h, b64Value_pad] at hc
    exact absurd hc (by simp)
  simp [wellFormed, hc, b64Value_A, List.replicate, hne]

theorem wellFormed_stray (j : Nat) (hj : j < 4) (c : Char) (hc : b64Value c = none)
    (hne : c ≠ '=') (r : List Char) :
    wellFormed (List.replicate j 'A' ++ c :: r) = false := by
  have hj' : j = 0 ∨ j = 1 ∨ j = 2 ∨ j = 3 := by omega
  rcases hj' with rfl | rfl | rfl | rfl <;>
    rcases r with _ | ⟨x, _ | ⟨y, _ | ⟨z, r⟩⟩⟩ <;>
    simp [wellFormed, hc, b64Value_A, List.replicate, hne]

theorem wellFormed_early_pad (j : Nat) (hj : j < 2) (r : List Char) :
    wellFormed (List.replicate j 'A' ++ '=' :: r) = false := by
  have hj' : j = 0 ∨ j = 1 := by omega
  rcases hj' with rfl | rfl <;>
    rcases r with _ | ⟨x, _ | ⟨y, _ | ⟨z, r⟩⟩⟩ <;>
    simp [wellFormed, b64Value_pad, b64Value_A, List.replicate]

theorem wellFormed_pad_two (r : List Char) :
    wellFormed (List.replicate 2 'A' ++ '=' :: r) = decide (r = ['=']) := by
  rcases r with _ | ⟨x, _ | ⟨y, r⟩⟩ <;>
    simp [wellFormed, b64Value_pad, b64Value_A, List.replicate]

theorem wellFormed_pad_one (r : List Char) :
    wellFormed (List.replicate 3 'A' ++ '=' :: r) = r.isEmpty := by
  simp [wellFormed, b64Value_pad, b64Value_A, List.replicate]

theorem decodeLoop_ok_iff (cs : List Char) (dbuf acc : List Nat) (hj : dbuf.length < 4) :
    (∃ b, decodeLoop cs dbuf acc = .ok b) ↔
      wellFormed (List.replicate dbuf.length 'A' ++ cs.filter (fun c => !isNewline c)) =
        true := by
  induction cs generalizing dbuf acc with
  | nil =>
    have hj' : dbuf.length = 0 ∨ dbuf.length = 1 ∨ dbuf.length = 2 ∨ dbuf.length = 3 := by
      omega
    rcases hj' with h | h | h | h <;> simp [decodeLoop, h, wellFormed, List.replicate]
  | cons c cs ih =>
    rcases hv : b64Value c with _ | v
    · by_cases hn : isNewline c = true
      · rw [decodeLoop]
        simp only [hv, hn, if_true]
        rw [ih dbuf acc hj]
        simp [hn]
      · have hn' : isNewline c = false := by simpa using hn
        have hf : (c :: cs).filter (fun c => !isNewline c) =
            c :: cs.filter (fun c => !isNewline c) := by
          simp [hn']
        rw [hf]
        by_cases hp : c = '='
        · subst hp
          by_cases h2 : dbuf.length < 2
          · rw [decodeLoop, wellFormed_early_pad _ h2]
            simp [hv, hn', h2]
          · by_cases h3 : dbuf.length = 2
            · rw [decodeLoop, h3, wellFormed_pad_two]
              simp only [hv, hn', h3]
              rcases hs : skipNewlines cs with _ | ⟨c2, cs2⟩
              · simp [filter_of_skipNewlines_nil cs hs]
              · rw [filter_of_skipNewlines_cons cs c2 cs2 hs]
                by_cases hc2 : c2 = '='
                · subst hc2
                  rcases hs2 : skipNewlines cs2 with _ | ⟨c3, cs3⟩
                  · simp [filter_of_skipNewlines_nil cs2 hs2, hs2]
                  · simp [filter_of_skipNewlines_cons cs2 c3 cs3 hs2, hs2]
                · simp [hc2]
            · have h4 : dbuf.length = 3 := by omega
              rw [decodeLoop, h4, wellFormed_pad_one]
              simp only [hv, hn', h4]
              rcases hs : skipNewlines cs with _ | ⟨c2, cs2⟩
              · simp [filter_of_skipNewlines_nil cs hs]
              · simp [filter_of_skipNewlines_cons cs c2 cs2 hs]
        · rw [decodeLoop, wellFormed_stray _ hj c hv hp]
          simp [hv, hn', hp]
    · have hn' : isNewline c = false := by
        by_contra hcon
        have := b64Value_newline c (by simpa using hcon)
        rw [hv] at this
        exact absurd this (by simp)
      have hf : (c :: cs).filter (fun c => !isNewline c) =
          c :: cs.filter (fun c => !isNewline c) := by
        simp [hn']
      rw [hf, decodeLoop]
      simp only [hv]
      by_cases h3 : dbuf.length = 3
      · rw [if_pos h3, ih [] _ (by simp), h3, wellFormed_last_digit c v hv]
        simp
      · rw [if_neg h3, ih (dbuf ++ [v]) acc (by simp; omega),
          wellFormed_digit _ (by omega) c v hv]
        simp

/-- The decoder accepts exactly the valid base64 texts. -/
theorem decodeString_ok_iff (s : String) :
    (∃ b, DecodeString s = .ok b) ↔ ValidBase64 s := by
  simpa [DecodeString, ValidBase64] using decodeLoop_ok_iff s.data [] [] (by simp)

/-! ## Theorems: the config-map template -/

/-- C18: `configMapTemplate` succeeds exactly when the playbook text is valid standard
base64 (well-formed padded base64 over the standard alphabet; the decoder of the Go library
ignores line breaks).  On success the config map is in the execution namespace of the
binding, its labels are the correlation labels of the hook plus `phase` = the current phase,
and its binary data is the single entry `playbook.yml` holding the decoded bytes: for the
base64 encoding of bytes `b`, exactly `b`.  On failure the result is the decode error and no
object. -/
theorem configMapTemplate_spec (lowerRune : Char → Char) (t : Task) (hook : MigPlanHook)
    (migHook : MigHook) :
    ((∃ cm, configMapTemplate lowerRune t hook migHook = .ok cm) ↔
        ValidBase64 migHook.Spec.Playbook) ∧
      (∀ cm, configMapTemplate lowerRune t hook migHook = .ok cm →
        cm.ObjectMeta.Namespace = hook.ExecutionNamespace ∧
          Labels.get cm.ObjectMeta.Labels "phase" = some t.Phase ∧
          (∀ k, k ≠ "phase" →
            Labels.get cm.ObjectMeta.Labels k = Labels.get migHook.CorrelationLabels k) ∧
          ∃ bytes, DecodeString migHook.Spec.Playbook = .ok bytes ∧
            cm.BinaryData = [("playbook.yml", bytes)]) ∧
      (∀ bytes, (∀ x ∈ bytes, x < 256) → migHook.Spec.Playbook = EncodeToString bytes →
        ∃ cm, configMapTemplate lowerRune t hook migHook = .ok cm ∧
          cm.BinaryData = [("playbook.yml", bytes)]) ∧
      (∀ e, configMapTemplate lowerRune t hook migHook = .error e ↔
        DecodeString migHook.Spec.Playbook = .error e) := by
  rcases hd : DecodeString migHook.Spec.Playbook with e | bytes
  · have hv : ¬ ValidBase64 migHook.Spec.Playbook := by
      rw [← decodeString_ok_iff, hd]
      simp
    refine ⟨?_, ?_, ?_, ?_⟩
    · simp [configMapTemplate, hd, hv]
    · intro cm h
      simp [configMapTemplate, hd] at h
    · intro b hb hp
      rw [hp, decodeString_encodeToString b hb] at hd
      simp at hd
    · intro e'
      simp [configMapTemplate, hd]
  · have hv : ValidBase64 migHook.Spec.Playbook := by
      rw [← decodeString_ok_iff, hd]
      exact ⟨bytes, rfl⟩
    refine ⟨?_, ?_, ?_, ?_⟩
    · simp [configMapTemplate, hd, hv]
    · intro cm h
      simp only [configMapTemplate, hd, Except.ok.injEq] at h
      rw [← h]
      exact ⟨rfl, (labels_get_set _ _ _).1, (labels_get_set _ _ _).2, bytes, rfl, rfl⟩
    · intro b hb hp
      have hdb : DecodeString migHook.Spec.Playbook = .ok b := by
        rw [hp, decodeString_encodeToString b hb]
      simp only [configMapTemplate, hdb]
      exact ⟨_, rfl, rfl⟩
    · intro e'
      simp [configMapTemplate, hd]

theorem configMapTemplate_spec_witness :
    ∃ cm, configMapTemplate sampleLower sampleTask sampleBinding playbookHook = .ok cm ∧
      cm.BinaryData = [("playbook.yml", [104, 105])] :=
  (configMapTemplate_spec sampleLower sampleTask sampleBinding playbookHook).2.2.1 [104, 105]
    (by decide) (by rfl)

end MigController
